import Mathlib

/-!
# PiperSynthesizer (src/modules/tts/piper-tts.cpp)

A shallow embedding of the `PiperSynthesizer` class: the voice registry, the
single-handle session lifecycle (`initVoice`, `cleanup`, `dispose`) and the
chunk streaming loop of `synthesize`.

The piper engine (`piper.h`) and the file system are external.  The engine is
an arbitrary deterministic state machine over a state type `σ`; every call the
class makes to it is also appended to a call log, so that statements about
which engine calls are issued, and in which order, can be made.

Strings handed to the engine are identified with their `c_str()`.
-/

namespace PiperTTS

/-! ## Data model -/

/-- A non-null `piper_synthesizer *`; the null pointer is `none : Option Handle`. -/
abbrev Handle := Nat

/-- One `float` sample, kept as its raw bit pattern: the class only copies samples. -/
abbrev Sample := Nat

/-- The fields of `piper_audio_chunk` that `synthesize` reads.  `samples` is the
pointer (`none` is `NULL`, `some buf` the buffer behind it). -/
structure piper_audio_chunk where
  samples : Option (List Sample)
  num_samples : Nat
  sample_rate : Int
  is_last : Bool
deriving DecidableEq, Repr

/-- The test `chunk.samples && chunk.num_samples > 0` of `synthesize`. -/
def piper_audio_chunk.hasSamples (c : piper_audio_chunk) : Bool :=
  c.samples.isSome && decide (c.num_samples > 0)

/-- The range `[chunk.samples, chunk.samples + chunk.num_samples)` that
`audio.insert` copies. -/
def piper_audio_chunk.range (c : piper_audio_chunk) : List Sample :=
  match c.samples with
  | none => []
  | some buf => buf.take c.num_samples

/-- The engine interface of `piper.h` as the class uses it.  `σ` is the engine's
own state, `ω` the type `piper_synthesize_options`.  The two status constants
come from the header and are left open.  `piper_synthesize_next` returns the
status together with the chunk it wrote through the out-pointer. -/
structure Engine (σ ω : Type) where
  PIPER_OK : Int
  PIPER_DONE : Int
  piper_create : σ → String → String → String → Option Handle × σ
  piper_free : σ → Handle → σ
  piper_default_synthesize_options : σ → Handle → ω × σ
  piper_synthesize_start : σ → Handle → String → ω → Int × σ
  piper_synthesize_next : σ → Handle → (Int × piper_audio_chunk) × σ

/-- One call into the engine, as recorded by the call log. -/
inductive EngineCall where
  | create (model json dataDir : String) (result : Option Handle)
  | free (h : Handle)
  | defaultOptions (h : Handle)
  | start (h : Handle) (text : String)
  | next (h : Handle)
deriving DecidableEq, Repr

/-- The engine's state together with the log of calls made so far. -/
structure World (σ : Type) where
  eng : σ
  log : List EngineCall

/-- The private fields of `PiperSynthesizer`.  `voices_` is the
`unordered_map`, kept as an association list with at most one entry per key. -/
structure PiperSynthesizer where
  synth_ : Option Handle
  voices_ : List (String × String × String)
  currentVoice_ : String
  lastSampleRate_ : Int
deriving DecidableEq, Repr

/-- The default-constructed object. -/
def PiperSynthesizer.fresh : PiperSynthesizer :=
  { synth_ := none, voices_ := [], currentVoice_ := "", lastSampleRate_ := 0 }

/-! ## The registry map -/

/-- A lookup `voices_.find(key)`; `none` is `voices_.end()`. -/
def mapFind : List (String × String × String) → String → Option (String × String)
  | [], _ => none
  | (k, v) :: rest, key => if k = key then some v else mapFind rest key

/-- The assignment `voices_[key] = v`: overwrite the entry of `key`, or add one. -/
def mapAssign : List (String × String × String) → String → String × String →
    List (String × String × String)
  | [], key, v => [(key, v)]
  | (k, v0) :: rest, key, v =>
    if k = key then (k, v) :: rest else (k, v0) :: mapAssign rest key v

/-! ## Operations -/

/-- The private `cleanup()`. -/
def cleanup {σ ω : Type} (E : Engine σ ω) (s : PiperSynthesizer) (w : World σ) :
    PiperSynthesizer × World σ :=
  match s.synth_ with
  | some h =>
    ({ s with synth_ := none, lastSampleRate_ := 0 },
     { eng := E.piper_free w.eng h, log := w.log ++ [EngineCall.free h] })
  | none => (s, w)

/-- The public `dispose()`. -/
def dispose {σ ω : Type} (E : Engine σ ω) (s : PiperSynthesizer) (w : World σ) :
    PiperSynthesizer × World σ :=
  cleanup E s w

/-- The destructor. -/
def destroy {σ ω : Type} (E : Engine σ ω) (s : PiperSynthesizer) (w : World σ) :
    PiperSynthesizer × World σ :=
  cleanup E s w

/-- The public `registerVoice`; `fileExists` is the file system at the time of the call. -/
def registerVoice (fileExists : String → Bool) (s : PiperSynthesizer)
    (voice_key modelFilename jsonFilename : String) : PiperSynthesizer :=
  if voice_key = "" then s
  else if !fileExists modelFilename then s
  else if !fileExists jsonFilename then s
  else { s with voices_ := mapAssign s.voices_ voice_key (modelFilename, jsonFilename) }

/-- The public `initVoice`. -/
def initVoice {σ ω : Type} (E : Engine σ ω) (s : PiperSynthesizer) (w : World σ)
    (voice_key : String) : Bool × PiperSynthesizer × World σ :=
  match mapFind s.voices_ voice_key with
  | none => (false, s, w)
  | some (model, json) =>
    let sw := cleanup E s w
    let r := E.piper_create sw.2.eng model json "./espeak-ng-data"
    let w2 : World σ :=
      { eng := r.2, log := sw.2.log ++ [EngineCall.create model json "./espeak-ng-data" r.1] }
    let s2 := { sw.1 with synth_ := r.1 }
    match r.1 with
    | none => (false, s2, w2)
    | some _ => (true, { s2 with currentVoice_ := voice_key, lastSampleRate_ := 0 }, w2)

/-- The `while (true)` loop of `synthesize`, run for at most `fuel` pulls.  The
loop state is the world, `lastSampleRate_` and the `audio` vector; `none` means
the loop has not ended within `fuel` pulls. -/
def synthLoop {σ ω : Type} (E : Engine σ ω) (h : Handle) :
    Nat → World σ → Int → List Sample → Option (World σ × Int × List Sample)
  | 0, _, _, _ => none
  | fuel + 1, w, rate, acc =>
    let r := E.piper_synthesize_next w.eng h
    let rc := r.1.1
    let chunk := r.1.2
    let w1 : World σ := { eng := r.2, log := w.log ++ [EngineCall.next h] }
    if rc ≠ E.PIPER_OK ∧ rc ≠ E.PIPER_DONE then some (w1, rate, acc)
    else
      let rate1 := if chunk.hasSamples then (if rate = 0 then chunk.sample_rate else rate) else rate
      let acc1 := if chunk.hasSamples then acc ++ chunk.range else acc
      if rc = E.PIPER_DONE ∨ chunk.is_last = true then some (w1, rate1, acc1)
      else synthLoop E h fuel w1 rate1 acc1

/-- The public `synthesize`; `fuel` bounds the number of pulls of the loop. -/
def synthesize {σ ω : Type} (E : Engine σ ω) (fuel : Nat) (s : PiperSynthesizer)
    (w : World σ) (text : String) : Option (List Sample × PiperSynthesizer × World σ) :=
  match s.synth_ with
  | none => some ([], s, w)
  | some h =>
    if text = "" then some ([], s, w)
    else
      let o := E.piper_default_synthesize_options w.eng h
      let st := E.piper_synthesize_start o.2 h text o.1
      let w2 : World σ :=
        { eng := st.2, log := w.log ++ [EngineCall.defaultOptions h, EngineCall.start h text] }
      if st.1 ≠ E.PIPER_OK then some ([], s, w2)
      else
        match synthLoop E h fuel w2 s.lastSampleRate_ [] with
        | none => none
        | some (w3, rate, acc) => some (acc, { s with lastSampleRate_ := rate }, w3)

/-- The public `getLastSampleRate`. -/
def getLastSampleRate (s : PiperSynthesizer) : Int :=
  s.lastSampleRate_

/-- The public `listVoices`. -/
def listVoices (s : PiperSynthesizer) : List String :=
  s.voices_.map (fun kv => kv.1)

/-! ## The test driver: sequences of public operations -/

/-- A call of one public member function.  A `registerVoice` call carries the
file system it is made under. -/
inductive Op where
  | registerVoice (fileExists : String → Bool) (voice_key modelFilename jsonFilename : String)
  | initVoice (voice_key : String)
  | synthesize (text : String)
  | dispose
  | getLastSampleRate
  | listVoices

/-- Run one public operation; `none` when a `synthesize` loop has not ended
within `fuel` pulls. -/
def step {σ ω : Type} (E : Engine σ ω) (fuel : Nat) (s : PiperSynthesizer) (w : World σ) :
    Op → Option (PiperSynthesizer × World σ)
  | Op.registerVoice fe k m j => some (registerVoice fe s k m j, w)
  | Op.initVoice k => some (initVoice E s w k).2
  | Op.synthesize text => (synthesize E fuel s w text).map (fun r => r.2)
  | Op.dispose => some (dispose E s w)
  | Op.getLastSampleRate => some (s, w)
  | Op.listVoices => some (s, w)

/-- Run a sequence of public operations from left to right. -/
def run {σ ω : Type} (E : Engine σ ω) (fuel : Nat) :
    List Op → PiperSynthesizer → World σ → Option (PiperSynthesizer × World σ)
  | [], s, w => some (s, w)
  | op :: ops, s, w =>
    match step E fuel s w op with
    | none => none
    | some (s1, w1) => run E fuel ops s1 w1

/-- Number of `piper_create` calls in the log that returned a handle. -/
def creates : List EngineCall → Nat
  | [] => 0
  | EngineCall.create _ _ _ (some _) :: cs => creates cs + 1
  | _ :: cs => creates cs

/-- Number of `piper_free` calls in the log. -/
def releases : List EngineCall → Nat
  | [] => 0
  | EngineCall.free _ :: cs => releases cs + 1
  | _ :: cs => releases cs

/-- The counting invariant of the call log: successful creations are the
releases, plus one while a handle is owned. -/
def balanced (s : PiperSynthesizer) (log : List EngineCall) : Prop :=
  creates log = releases log + (if s.synth_.isSome then 1 else 0)

/-! ## The pull sequence of an engine -/

/-- The engine state after `i` pulls from state `e`. -/
def afterPulls {σ ω : Type} (E : Engine σ ω) (h : Handle) : Nat → σ → σ
  | 0, e => e
  | i + 1, e => afterPulls E h i (E.piper_synthesize_next e h).2

/-- The status and chunk of pull number `i` (counted from 0) from state `e`. -/
def pull {σ ω : Type} (E : Engine σ ω) (h : Handle) (e : σ) (i : Nat) :
    Int × piper_audio_chunk :=
  (E.piper_synthesize_next (afterPulls E h i e) h).1

/-- The chunks of the first `n` pulls from state `e`, in pull order. -/
def chunks {σ ω : Type} (E : Engine σ ω) (h : Handle) : Nat → σ → List piper_audio_chunk
  | 0, _ => []
  | n + 1, e =>
    (E.piper_synthesize_next e h).1.2 :: chunks E h n (E.piper_synthesize_next e h).2

/-- The samples of a list of chunks, concatenated in order. -/
def concatSamples : List piper_audio_chunk → List Sample
  | [] => []
  | c :: cs => c.range ++ concatSamples cs

/-- A status other than "more data" and "done". -/
def isError {σ ω : Type} (E : Engine σ ω) (p : Int × piper_audio_chunk) : Prop :=
  p.1 ≠ E.PIPER_OK ∧ p.1 ≠ E.PIPER_DONE

/-- The status "done", or a chunk with `is_last` set. -/
def isFinal {σ ω : Type} (E : Engine σ ω) (p : Int × piper_audio_chunk) : Prop :=
  p.1 = E.PIPER_DONE ∨ p.2.is_last = true

instance {σ ω : Type} (E : Engine σ ω) (p : Int × piper_audio_chunk) : Decidable (isError E p) := by
  unfold isError; infer_instance

instance {σ ω : Type} (E : Engine σ ω) (p : Int × piper_audio_chunk) : Decidable (isFinal E p) := by
  unfold isFinal; infer_instance

/-- The engine state in which the loop of `synthesize` starts: after the
default-options and start calls. -/
def startState {σ ω : Type} (E : Engine σ ω) (e : σ) (h : Handle) (text : String) : σ :=
  (E.piper_synthesize_start (E.piper_default_synthesize_options e h).2 h text
    (E.piper_default_synthesize_options e h).1).2

/-- The status returned by the start call of `synthesize`. -/
def startStatus {σ ω : Type} (E : Engine σ ω) (e : σ) (h : Handle) (text : String) : Int :=
  (E.piper_synthesize_start (E.piper_default_synthesize_options e h).2 h text
    (E.piper_default_synthesize_options e h).1).1

/-- What `lastSampleRate_` becomes after the given chunks have been processed. -/
def recordRate : Int → List piper_audio_chunk → Int
  | r, [] => r
  | r, c :: cs =>
    recordRate (if c.hasSamples then (if r = 0 then c.sample_rate else r) else r) cs

/-- The chunks `synthesize` processes when its loop ends at pull `n`: those of
pulls `0 .. n`, without the chunk of pull `n` when that pull failed. -/
def processed {σ ω : Type} (E : Engine σ ω) (h : Handle) (e : σ) (n : Nat) :
    List piper_audio_chunk :=
  if isError E (pull E h e n) then chunks E h n e else chunks E h (n + 1) e

/-- The pulls before pull `n` neither fail nor end the stream, and pull `n` does. -/
def endsAt {σ ω : Type} (E : Engine σ ω) (h : Handle) (e : σ) (n : Nat) : Prop :=
  (∀ i, i < n → ¬ isError E (pull E h e i) ∧ ¬ isFinal E (pull E h e i)) ∧
  (isError E (pull E h e n) ∨ isFinal E (pull E h e n))

instance {σ ω : Type} (E : Engine σ ω) (h : Handle) (e : σ) (n : Nat) :
    Decidable (endsAt E h e n) := by
  unfold endsAt; infer_instance

/-! ## Handle lifetimes in a call log -/

/-- Replay a call log against handle lifetimes.  `live` is the handle that has
been created and not yet released.  A creation is accepted only while no handle
is live and makes its result live; a release is accepted only for the live
handle and ends its life; every other call is accepted only on the live handle.
The result is the live handle at the end of the log, or `none` when some call
is not accepted. -/
def lifetimes : Option Handle → List EngineCall → Option (Option Handle)
  | live, [] => some live
  | live, EngineCall.create _ _ _ r :: cs => if live = none then lifetimes r cs else none
  | live, EngineCall.free h :: cs => if live = some h then lifetimes none cs else none
  | live, EngineCall.defaultOptions h :: cs => if live = some h then lifetimes live cs else none
  | live, EngineCall.start h _ :: cs => if live = some h then lifetimes live cs else none
  | live, EngineCall.next h :: cs => if live = some h then lifetimes live cs else none

/-- Number of `piper_create` calls in the log that returned handle `h`. -/
def createsOf (h : Handle) : List EngineCall → Nat
  | [] => 0
  | EngineCall.create _ _ _ r :: cs => (if r = some h then 1 else 0) + createsOf h cs
  | _ :: cs => createsOf h cs

/-- Number of `piper_free` calls in the log on handle `h`. -/
def releasesOf (h : Handle) : List EngineCall → Nat
  | [] => 0
  | EngineCall.free x :: cs => (if x = h then 1 else 0) + releasesOf h cs
  | _ :: cs => releasesOf h cs

/-! ## Calls that pull no samples -/

/-- A `synthesize(t)` call on handle `h` from world `w` in which no processed
chunk has samples: either it pulls nothing (empty text, failed start), or its
loop, if it ends within `fuel` pulls, has processed only chunks without samples. -/
def silentCall {σ ω : Type} (E : Engine σ ω) (h : Handle) (fuel : Nat) (w : World σ)
    (t : String) : Prop :=
  t ≠ "" → startStatus E w.eng h t = E.PIPER_OK →
    ∀ n, n < fuel → endsAt E h (startState E w.eng h t) n →
      ∀ c ∈ processed E h (startState E w.eng h t) n, c.hasSamples = false

instance {σ ω : Type} (E : Engine σ ω) (h : Handle) (fuel : Nat) (w : World σ) (t : String) :
    Decidable (silentCall E h fuel w t) := by
  unfold silentCall; infer_instance

/-- Every call of a sequence of `synthesize` calls, made one after the other
from session `s` and world `w`, is a `silentCall`. -/
def allSilent {σ ω : Type} (E : Engine σ ω) (h : Handle) (fuel : Nat) :
    List String → PiperSynthesizer → World σ → Prop
  | [], _, _ => True
  | t :: ts, s, w =>
    silentCall E h fuel w t ∧
      match synthesize E fuel s w t with
      | none => True
      | some r => allSilent E h fuel ts r.2.1 r.2.2

/-! ## Sequences of `registerVoice` calls -/

/-- One `registerVoice` call: its arguments and the file system it is made under. -/
structure RegCall where
  fileExists : String → Bool
  voice_key : String
  modelFilename : String
  jsonFilename : String

/-- The call passes the three checks of `registerVoice`. -/
def RegCall.succeeds (c : RegCall) : Bool :=
  decide (c.voice_key ≠ "") && c.fileExists c.modelFilename && c.fileExists c.jsonFilename

/-- Make the calls one after the other, the head of the list first. -/
def registerAll : List RegCall → PiperSynthesizer → PiperSynthesizer
  | [], s => s
  | c :: cs, s =>
    registerAll cs (registerVoice c.fileExists s c.voice_key c.modelFilename c.jsonFilename)

/-- The paths of the most recent successful call for `key` in a sequence of
calls (head first): the one found among the later calls if there is one,
otherwise the call at the head if it succeeds and is for `key`. -/
def lastWrite : List RegCall → String → Option (String × String)
  | [], _ => none
  | c :: cs, key =>
    match lastWrite cs key with
    | some v => some v
    | none =>
      if c.succeeds = true ∧ c.voice_key = key then some (c.modelFilename, c.jsonFilename)
      else none

/-- The call creates or releases a handle. -/
def EngineCall.isLifecycle : EngineCall → Bool
  | EngineCall.create _ _ _ _ => true
  | EngineCall.free _ => true
  | _ => false

/-! ## A scripted engine (test double) -/

/-- State of the scripted engine: the results of the coming `piper_create`
calls, the status of every start call, and the coming pulls. -/
structure Script where
  createResults : List (Option Handle)
  startRc : Int
  pulls : List (Int × piper_audio_chunk)
deriving DecidableEq, Repr

/-- The scripted engine, with `PIPER_OK = 0` and `PIPER_DONE = 1`; it answers
`-1` once its pulls are used up. -/
def scripted : Engine Script Unit :=
  { PIPER_OK := 0
    PIPER_DONE := 1
    piper_create := fun e _ _ _ =>
      match e.createResults with
      | [] => (none, e)
      | r :: rs => (r, { e with createResults := rs })
    piper_free := fun e _ => e
    piper_default_synthesize_options := fun e _ => ((), e)
    piper_synthesize_start := fun e _ _ _ => (e.startRc, e)
    piper_synthesize_next := fun e _ =>
      match e.pulls with
      | [] => ((-1, ⟨none, 0, 0, false⟩), e)
      | p :: ps => (p, { e with pulls := ps }) }

/-- A chunk of `n` samples `base, base + 1, ...` at the given rate. -/
def mkChunk (base n : Nat) (rate : Int) (last : Bool) : piper_audio_chunk :=
  ⟨some ((List.range n).map (fun i => base + i)), n, rate, last⟩

/-! ## Fixtures -/

/-- The engine of the three-chunk scenario: chunks of 10, 10 and 5 samples, the
third with `is_last`. -/
def threeChunks : Script :=
  { createResults := []
    startRc := 0
    pulls := [(0, mkChunk 0 10 22050 false), (0, mkChunk 100 10 22050 false),
      (0, mkChunk 200 5 22050 true)] }

/-- A session that owns handle `7` for voice `en_us`. -/
def readySession : PiperSynthesizer :=
  { synth_ := some 7
    voices_ := [("en_us", "model.onnx", "model.json")]
    currentVoice_ := "en_us"
    lastSampleRate_ := 0 }

/-- An engine whose third pull fails with status `-1` after two good chunks. -/
def failsOnThird : Script :=
  { createResults := []
    startRc := 0
    pulls := [(0, mkChunk 0 4 22050 false), (0, mkChunk 10 3 22050 false),
      (-1, mkChunk 20 2 22050 false), (0, mkChunk 30 1 22050 true)] }

/-- An engine serving two `synthesize` calls: the first call gets one chunk at
22050 Hz, the second one chunk at 16000 Hz, each with status "done". -/
def twoCalls : Script :=
  { createResults := []
    startRc := 0
    pulls := [(1, mkChunk 0 2 22050 false), (1, mkChunk 10 2 16000 false)] }

/-- The engine `twoCalls` after its first call. -/
def twoCallsRest : Script :=
  { createResults := []
    startRc := 0
    pulls := [(1, mkChunk 10 2 16000 false)] }

/-- The session `readySession` after a call that recorded 22050 Hz. -/
def ratedSession : PiperSynthesizer :=
  { readySession with lastSampleRate_ := 22050 }

/-- An engine whose first chunk with samples reports rate 0 and whose second
reports 22050 Hz. -/
def zeroRateFirst : Script :=
  { createResults := []
    startRc := 0
    pulls := [(0, mkChunk 0 2 0 false), (1, mkChunk 10 2 22050 false)] }

/-- An engine with an empty chunk, then chunks at 22050 Hz and at 16000 Hz. -/
def mixedRates : Script :=
  { createResults := []
    startRc := 0
    pulls := [(0, mkChunk 0 0 8000 false), (0, mkChunk 0 2 22050 false),
      (1, mkChunk 10 2 16000 false)] }

/-- A session that owns handle `7` for `en_us`, has recorded 22050 Hz, and has
a second voice `de` registered. -/
def twoVoiceSession : PiperSynthesizer :=
  { synth_ := some 7
    voices_ := [("en_us", "model.onnx", "model.json"), ("de", "de.onnx", "de.json")]
    currentVoice_ := "en_us"
    lastSampleRate_ := 22050 }

/-- An engine whose next `piper_create` fails. -/
def createFails : Script :=
  { createResults := [none], startRc := 0, pulls := [] }

/-- An engine whose next `piper_create` returns handle `9`. -/
def createGives9 : Script :=
  { createResults := [some 9], startRc := 0, pulls := [] }

/-- The file system in which every file exists. -/
def allFiles : String → Bool :=
  fun _ => true

/-- An engine that creates handles `1` and `2` and then serves one chunk. -/
def twoCreates : Script :=
  { createResults := [some 1, some 2]
    startRc := 0
    pulls := [(1, mkChunk 0 3 22050 false)] }

/-- Register two voices, activate the first, synthesize, activate the second. -/
def twoActivations : List Op :=
  [Op.registerVoice allFiles "en_us" "model.onnx" "model.json",
   Op.registerVoice allFiles "de" "de.onnx" "de.json",
   Op.initVoice "en_us", Op.synthesize "hello", Op.getLastSampleRate, Op.listVoices,
   Op.initVoice "de"]

/-- The session at the end of `twoActivations` on `twoCreates`. -/
def afterTwoActivations : PiperSynthesizer :=
  { synth_ := some 2
    voices_ := [("en_us", "model.onnx", "model.json"), ("de", "de.onnx", "de.json")]
    currentVoice_ := "de"
    lastSampleRate_ := 0 }

/-- The call log at the end of `twoActivations` on `twoCreates`. -/
def logTwoActivations : List EngineCall :=
  [EngineCall.create "model.onnx" "model.json" "./espeak-ng-data" (some 1),
   EngineCall.defaultOptions 1, EngineCall.start 1 "hello", EngineCall.next 1,
   EngineCall.free 1,
   EngineCall.create "de.onnx" "de.json" "./espeak-ng-data" (some 2)]

/-- Register `en_us`, activate it and synthesize once. -/
def synthesizedOnce : List Op :=
  [Op.registerVoice allFiles "en_us" "model.onnx" "model.json",
   Op.initVoice "en_us", Op.synthesize "hello"]

/-- The session at the end of `synthesizedOnce` on `twoCreates`: 22050 Hz recorded. -/
def afterSynthesizedOnce : PiperSynthesizer :=
  { synth_ := some 1
    voices_ := [("en_us", "model.onnx", "model.json")]
    currentVoice_ := "en_us"
    lastSampleRate_ := 22050 }

/-- The world at the end of `synthesizedOnce` on `twoCreates`. -/
def worldSynthesizedOnce : World Script :=
  { eng := { createResults := [some 2], startRc := 0, pulls := [] }
    log := [EngineCall.create "model.onnx" "model.json" "./espeak-ng-data" (some 1),
      EngineCall.defaultOptions 1, EngineCall.start 1 "hello", EngineCall.next 1] }

/-- A fresh session with `en_us` registered. -/
def registeredSession : PiperSynthesizer :=
  { PiperSynthesizer.fresh with voices_ := [("en_us", "model.onnx", "model.json")] }

/-- An engine that creates handle `1` and then serves a chunk of no samples, a
"done" chunk with a null sample pointer, and a failing pull. -/
def silentEngine : Script :=
  { createResults := [some 1]
    startRc := 0
    pulls := [(0, mkChunk 0 0 8000 false), (1, ⟨none, 5, 8000, false⟩),
      (-1, mkChunk 0 3 44100 false)] }

/-- The session after `en_us` is activated on `silentEngine` and three silent
calls are made. -/
def afterSilentCalls : PiperSynthesizer :=
  { synth_ := some 1
    voices_ := [("en_us", "model.onnx", "model.json")]
    currentVoice_ := "en_us"
    lastSampleRate_ := 0 }

/-- The world after `en_us` is activated on `silentEngine` and `synthesize` is
called with `""`, `"a"` and `"b"`. -/
def worldSilentCalls : World Script :=
  { eng := { createResults := [], startRc := 0, pulls := [] }
    log := [EngineCall.create "model.onnx" "model.json" "./espeak-ng-data" (some 1),
      EngineCall.defaultOptions 1, EngineCall.start 1 "a", EngineCall.next 1,
      EngineCall.next 1,
      EngineCall.defaultOptions 1, EngineCall.start 1 "b", EngineCall.next 1] }

/-- The file system in which only `model.onnx` and `model.json` exist. -/
def onlyModel : String → Bool :=
  fun path => decide (path = "model.onnx") || decide (path = "model.json")

/-- Register `en_us` twice with different paths, with a rejected call between. -/
def reRegistered : List RegCall :=
  [⟨allFiles, "en_us", "v1.onnx", "v1.json"⟩,
   ⟨allFiles, "en_us", "v2.onnx", "v2.json"⟩,
   ⟨onlyModel, "en_us", "v3.onnx", "v3.json"⟩]

/-! ## The streaming loop -/

theorem range_of_not_hasSamples (c : piper_audio_chunk) (hc : c.hasSamples = false) :
    c.range = [] := by
  unfold piper_audio_chunk.hasSamples at hc
  unfold piper_audio_chunk.range
  cases hs : c.samples with
  | none => rfl
  | some buf =>
    have hn : c.num_samples = 0 := by simpa [hs] using hc
    simp [hn]

theorem append_range (acc : List Sample) (c : piper_audio_chunk) :
    (if c.hasSamples then acc ++ c.range else acc) = acc ++ c.range := by
  cases hc : c.hasSamples with
  | true => simp
  | false => simp [range_of_not_hasSamples c hc]

/-- One pull that neither fails nor ends the stream: the loop goes round. -/
theorem synthLoop_continue {σ ω : Type} (E : Engine σ ω) (h : Handle) (fuel : Nat)
    (w : World σ) (rate : Int) (acc : List Sample)
    (hne : ¬ isError E (pull E h w.eng 0)) (hnf : ¬ isFinal E (pull E h w.eng 0)) :
    synthLoop E h (fuel + 1) w rate acc =
      synthLoop E h fuel
        { eng := (E.piper_synthesize_next w.eng h).2, log := w.log ++ [EngineCall.next h] }
        (recordRate rate [(pull E h w.eng 0).2])
        (acc ++ (pull E h w.eng 0).2.range) := by
  unfold isError at hne
  unfold isFinal at hnf
  simp only [pull, afterPulls] at hne hnf ⊢
  simp only [synthLoop, recordRate, append_range]
  rw [if_neg hne, if_neg hnf]

/-- A pull with a failing status ends the loop and drops its chunk. -/
theorem synthLoop_error {σ ω : Type} (E : Engine σ ω) (h : Handle) (fuel : Nat)
    (w : World σ) (rate : Int) (acc : List Sample)
    (he : isError E (pull E h w.eng 0)) :
    synthLoop E h (fuel + 1) w rate acc =
      some ({ eng := (E.piper_synthesize_next w.eng h).2, log := w.log ++ [EngineCall.next h] },
        rate, acc) := by
  unfold isError at he
  simp only [pull, afterPulls] at he
  simp only [synthLoop]
  rw [if_pos he]

/-- A pull that does not fail and is final ends the loop after its chunk is taken. -/
theorem synthLoop_final {σ ω : Type} (E : Engine σ ω) (h : Handle) (fuel : Nat)
    (w : World σ) (rate : Int) (acc : List Sample)
    (hne : ¬ isError E (pull E h w.eng 0)) (hf : isFinal E (pull E h w.eng 0)) :
    synthLoop E h (fuel + 1) w rate acc =
      some ({ eng := (E.piper_synthesize_next w.eng h).2, log := w.log ++ [EngineCall.next h] },
        recordRate rate [(pull E h w.eng 0).2], acc ++ (pull E h w.eng 0).2.range) := by
  unfold isError at hne
  unfold isFinal at hf
  simp only [pull, afterPulls] at hne hf ⊢
  simp only [synthLoop, recordRate, append_range]
  rw [if_neg hne, if_pos hf]

theorem pull_succ {σ ω : Type} (E : Engine σ ω) (h : Handle) (e : σ) (i : Nat) :
    pull E h e (i + 1) = pull E h (E.piper_synthesize_next e h).2 i := rfl

theorem log_replicate_succ (l : List EngineCall) (c : EngineCall) (n : Nat) :
    (l ++ [c]) ++ List.replicate n c = l ++ List.replicate (n + 1) c := by
  simp [List.replicate_succ]

/-- The loop ends at pull `n` when that pull is the first final one and no pull
up to it fails: all `n + 1` chunks are taken. -/
theorem synthLoop_ends_final {σ ω : Type} (E : Engine σ ω) (h : Handle) :
    ∀ (n fuel : Nat) (w : World σ) (rate : Int) (acc : List Sample), n < fuel →
      (∀ i, i < n → ¬ isError E (pull E h w.eng i) ∧ ¬ isFinal E (pull E h w.eng i)) →
      ¬ isError E (pull E h w.eng n) → isFinal E (pull E h w.eng n) →
      synthLoop E h fuel w rate acc =
        some ({ eng := afterPulls E h (n + 1) w.eng,
                log := w.log ++ List.replicate (n + 1) (EngineCall.next h) },
          recordRate rate (chunks E h (n + 1) w.eng),
          acc ++ concatSamples (chunks E h (n + 1) w.eng)) := by
  intro n
  induction n with
  | zero =>
    intro fuel w rate acc hfuel _ hne hf
    obtain ⟨f, rfl⟩ : ∃ f, fuel = f + 1 := ⟨fuel - 1, by omega⟩
    rw [synthLoop_final E h f w rate acc hne hf]
    simp [afterPulls, chunks, concatSamples, pull]
  | succ n ih =>
    intro fuel w rate acc hfuel hpre hne hf
    obtain ⟨f, rfl⟩ : ∃ f, fuel = f + 1 := ⟨fuel - 1, by omega⟩
    have h0 := hpre 0 (Nat.succ_pos n)
    rw [synthLoop_continue E h f w rate acc h0.1 h0.2]
    rw [ih f _ _ _ (by omega) (fun i hi => hpre (i + 1) (by omega)) hne hf]
    simp only [log_replicate_succ]
    simp [afterPulls, chunks, concatSamples, pull, recordRate]

/-- The loop ends at pull `n` when that pull is the first one to fail and no
pull before it is final: the `n` chunks before it are taken. -/
theorem synthLoop_ends_error {σ ω : Type} (E : Engine σ ω) (h : Handle) :
    ∀ (n fuel : Nat) (w : World σ) (rate : Int) (acc : List Sample), n < fuel →
      (∀ i, i < n → ¬ isError E (pull E h w.eng i) ∧ ¬ isFinal E (pull E h w.eng i)) →
      isError E (pull E h w.eng n) →
      synthLoop E h fuel w rate acc =
        some ({ eng := afterPulls E h (n + 1) w.eng,
                log := w.log ++ List.replicate (n + 1) (EngineCall.next h) },
          recordRate rate (chunks E h n w.eng),
          acc ++ concatSamples (chunks E h n w.eng)) := by
  intro n
  induction n with
  | zero =>
    intro fuel w rate acc hfuel _ he
    obtain ⟨f, rfl⟩ : ∃ f, fuel = f + 1 := ⟨fuel - 1, by omega⟩
    rw [synthLoop_error E h f w rate acc he]
    simp [afterPulls, chunks, concatSamples, recordRate]
  | succ n ih =>
    intro fuel w rate acc hfuel hpre he
    obtain ⟨f, rfl⟩ : ∃ f, fuel = f + 1 := ⟨fuel - 1, by omega⟩
    have h0 := hpre 0 (Nat.succ_pos n)
    rw [synthLoop_continue E h f w rate acc h0.1 h0.2]
    rw [ih f _ _ _ (by omega) (fun i hi => hpre (i + 1) (by omega)) he]
    simp only [log_replicate_succ]
    simp [afterPulls, chunks, concatSamples, pull, recordRate]

/-- Wherever the loop ends, it has made `n + 1` pulls and taken the processed chunks. -/
theorem synthLoop_ends {σ ω : Type} (E : Engine σ ω) (h : Handle) (n fuel : Nat)
    (w : World σ) (rate : Int) (acc : List Sample) (hfuel : n < fuel)
    (hend : endsAt E h w.eng n) :
    synthLoop E h fuel w rate acc =
      some ({ eng := afterPulls E h (n + 1) w.eng,
              log := w.log ++ List.replicate (n + 1) (EngineCall.next h) },
        recordRate rate (processed E h w.eng n),
        acc ++ concatSamples (processed E h w.eng n)) := by
  unfold processed
  by_cases he : isError E (pull E h w.eng n)
  · rw [if_pos he]
    exact synthLoop_ends_error E h n fuel w rate acc hfuel hend.1 he
  · rw [if_neg he]
    exact synthLoop_ends_final E h n fuel w rate acc hfuel hend.1 he
      (hend.2.resolve_left he)

/-- A rate that is already set is kept. -/
theorem recordRate_of_ne_zero (r : Int) (hr : r ≠ 0) (cs : List piper_audio_chunk) :
    recordRate r cs = r := by
  induction cs with
  | nil => rfl
  | cons c cs ih =>
    simp only [recordRate, if_neg hr]
    simpa using ih

/-- An unset rate becomes the rate of the first chunk that has samples and a
non-zero rate, and stays unset when there is none. -/
theorem recordRate_zero (cs : List piper_audio_chunk) :
    recordRate 0 cs =
      ((cs.find? (fun c => c.hasSamples && decide (c.sample_rate ≠ 0))).map
        (fun c => c.sample_rate)).getD 0 := by
  induction cs with
  | nil => rfl
  | cons c cs ih =>
    simp only [recordRate, List.find?]
    cases hc : c.hasSamples with
    | false => simpa using ih
    | true =>
      by_cases hr : c.sample_rate = 0
      · simpa [hr] using ih
      · simp [hr, recordRate_of_ne_zero _ hr]

/-- Unfolding of `synthesize` on a live handle with non-empty text and a
successful start. -/
theorem synthesize_started {σ ω : Type} (E : Engine σ ω) (fuel : Nat) (s : PiperSynthesizer)
    (w : World σ) (h : Handle) (text : String)
    (hlive : s.synth_ = some h) (htext : text ≠ "")
    (hstart : startStatus E w.eng h text = E.PIPER_OK) :
    synthesize E fuel s w text =
      (synthLoop E h fuel
        { eng := startState E w.eng h text,
          log := w.log ++ [EngineCall.defaultOptions h, EngineCall.start h text] }
        s.lastSampleRate_ []).map
        (fun r => (r.2.2, { s with lastSampleRate_ := r.2.1 }, r.1)) := by
  unfold startStatus at hstart
  simp only [synthesize, hlive, if_neg htext, startState]
  rw [if_neg (by simpa using hstart)]
  cases synthLoop E h fuel _ s.lastSampleRate_ [] <;> rfl

theorem creates_append (l1 l2 : List EngineCall) :
    creates (l1 ++ l2) = creates l1 + creates l2 := by
  induction l1 with
  | nil => simp [creates]
  | cons c l ih =>
    cases c with
    | create m j d r =>
      cases r with
      | none => simpa [creates] using ih
      | some x => simp [creates, ih]; omega
    | free x => simpa [creates] using ih
    | defaultOptions x => simpa [creates] using ih
    | start x y => simpa [creates] using ih
    | next x => simpa [creates] using ih

theorem releases_append (l1 l2 : List EngineCall) :
    releases (l1 ++ l2) = releases l1 + releases l2 := by
  induction l1 with
  | nil => simp [releases]
  | cons c l ih =>
    cases c with
    | create m j d r => simpa [releases] using ih
    | free x => simp [releases, ih]; omega
    | defaultOptions x => simpa [releases] using ih
    | start x y => simpa [releases] using ih
    | next x => simpa [releases] using ih

/-- The whole effect of a `synthesize` call whose loop ends at pull `n`. -/
theorem synthesize_ends {σ ω : Type} (E : Engine σ ω) (s : PiperSynthesizer)
    (w : World σ) (h : Handle) (text : String) (n fuel : Nat)
    (hlive : s.synth_ = some h) (htext : text ≠ "")
    (hstart : startStatus E w.eng h text = E.PIPER_OK)
    (hend : endsAt E h (startState E w.eng h text) n) (hfuel : n < fuel) :
    synthesize E fuel s w text =
      some (concatSamples (processed E h (startState E w.eng h text) n),
        { s with lastSampleRate_ :=
            recordRate s.lastSampleRate_ (processed E h (startState E w.eng h text) n) },
        { eng := afterPulls E h (n + 1) (startState E w.eng h text),
          log := w.log ++ [EngineCall.defaultOptions h, EngineCall.start h text] ++
            List.replicate (n + 1) (EngineCall.next h) }) := by
  rw [synthesize_started E fuel s w h text hlive htext hstart]
  rw [synthLoop_ends E h n fuel _ _ _ hfuel hend]
  simp

/-! ## Claims about `synthesize` -/

/-- C1: on a live handle with non-empty text and a successful start, when the
pulls numbered `0 .. n` all return "more data" or "done" and pull `n` is the
first one that returns "done" or a chunk with `is_last`, then `synthesize`
(given more than `n` pulls of fuel) returns exactly the samples of the chunks
of pulls `0 .. n`, concatenated in pull order. -/
theorem synthesize_returns_concatenation {σ ω : Type} (E : Engine σ ω) (s : PiperSynthesizer)
    (w : World σ) (h : Handle) (text : String) (n fuel : Nat)
    (hlive : s.synth_ = some h) (htext : text ≠ "")
    (hstart : startStatus E w.eng h text = E.PIPER_OK)
    (hstat : ∀ i, i ≤ n →
      (pull E h (startState E w.eng h text) i).1 = E.PIPER_OK ∨
      (pull E h (startState E w.eng h text) i).1 = E.PIPER_DONE)
    (hfirst : ∀ i, i < n → ¬ isFinal E (pull E h (startState E w.eng h text) i))
    (hend : isFinal E (pull E h (startState E w.eng h text) n))
    (hfuel : n < fuel) :
    (synthesize E fuel s w text).map (fun r => r.1) =
      some (concatSamples (chunks E h (n + 1) (startState E w.eng h text))) := by
  have hne : ∀ i, i ≤ n → ¬ isError E (pull E h (startState E w.eng h text) i) := by
    intro i hi he
    unfold isError at he
    rcases hstat i hi with h1 | h1
    · exact he.1 h1
    · exact he.2 h1
  rw [synthesize_started E fuel s w h text hlive htext hstart]
  rw [synthLoop_ends_final E h n fuel _ _ _ hfuel
    (fun i hi => ⟨hne i (Nat.le_of_lt hi), hfirst i hi⟩) (hne n (Nat.le_refl n)) hend]
  simp

/-- C1, the scenario of the spec: chunks of 10, 10 and 5 samples, `is_last` on
the third, give the 25 samples in chunk order. -/
theorem synthesize_three_chunks :
    (synthesize scripted 3 readySession { eng := threeChunks, log := [] } "hello").map
        (fun r => r.1) =
      some ((mkChunk 0 10 22050 false).range ++ (mkChunk 100 10 22050 false).range ++
        (mkChunk 200 5 22050 true).range) ∧
    ((mkChunk 0 10 22050 false).range ++ (mkChunk 100 10 22050 false).range ++
        (mkChunk 200 5 22050 true).range).length = 25 :=
  ⟨by
    have key := synthesize_returns_concatenation scripted readySession
      { eng := threeChunks, log := [] } 7 "hello" 2 3 rfl (by decide) rfl
      (by decide) (by decide) (by decide) (by decide)
    rw [key]
    rfl, by decide⟩

/-- C2: on a live handle with non-empty text and a successful start, when pull
`n` (counted from 0) returns a status other than "more data" and "done" and no
earlier pull ended the loop, `synthesize` stops at that pull: it returns the
samples of the `n` chunks pulled before it, has issued `n + 1` pulls and no
release, and leaves the handle, the voice key and the registry as they were. -/
theorem synthesize_error_returns_partial {σ ω : Type} (E : Engine σ ω) (s : PiperSynthesizer)
    (w : World σ) (h : Handle) (text : String) (n fuel : Nat)
    (hlive : s.synth_ = some h) (htext : text ≠ "")
    (hstart : startStatus E w.eng h text = E.PIPER_OK)
    (hpre : ∀ i, i < n →
      ¬ isError E (pull E h (startState E w.eng h text) i) ∧
      ¬ isFinal E (pull E h (startState E w.eng h text) i))
    (herr : isError E (pull E h (startState E w.eng h text) n))
    (hfuel : n < fuel) :
    ∃ s1 w1,
      synthesize E fuel s w text =
        some (concatSamples (chunks E h n (startState E w.eng h text)), s1, w1) ∧
      s1.synth_ = some h ∧ s1.currentVoice_ = s.currentVoice_ ∧ s1.voices_ = s.voices_ ∧
      w1.log = w.log ++ [EngineCall.defaultOptions h, EngineCall.start h text] ++
        List.replicate (n + 1) (EngineCall.next h) ∧
      releases w1.log = releases w.log := by
  have hrep : ∀ k : Nat, releases (List.replicate k (EngineCall.next h)) = 0 := by
    intro k
    induction k with
    | zero => rfl
    | succ k ih => simpa [List.replicate_succ, releases] using ih
  rw [synthesize_started E fuel s w h text hlive htext hstart]
  rw [synthLoop_ends_error E h n fuel _ _ _ hfuel hpre herr]
  refine ⟨_, _, rfl, hlive, rfl, rfl, ?_, ?_⟩
  · simp
  · simp [releases_append, releases, hrep]

/-- C2 on the engine whose third pull fails: the 7 samples of the first two
chunks come back and the session still owns handle `7` for `en_us`. -/
theorem synthesize_error_on_third_pull :
    ∃ s1 w1,
      synthesize scripted 5 readySession { eng := failsOnThird, log := [] } "hello" =
        some ([0, 1, 2, 3, 10, 11, 12], s1, w1) ∧
      s1.synth_ = some 7 ∧ s1.currentVoice_ = "en_us" ∧
      s1.voices_ = [("en_us", "model.onnx", "model.json")] ∧
      w1.log = [EngineCall.defaultOptions 7, EngineCall.start 7 "hello", EngineCall.next 7,
        EngineCall.next 7, EngineCall.next 7] ∧
      releases w1.log = 0 :=
  synthesize_error_returns_partial scripted readySession { eng := failsOnThird, log := [] }
    7 "hello" 2 5 rfl (by decide) rfl (by decide) (by decide) (by decide)

theorem recordRate_zero_first (cs : List piper_audio_chunk) (c : piper_audio_chunk)
    (hc : cs.find? (fun x => x.hasSamples) = some c) (hr : c.sample_rate ≠ 0) :
    recordRate 0 cs = c.sample_rate := by
  induction cs with
  | nil => simp at hc
  | cons x xs ih =>
    simp only [recordRate, List.find?] at hc ⊢
    cases hx : x.hasSamples with
    | false =>
      rw [hx] at hc
      simpa using ih hc
    | true =>
      rw [hx] at hc
      have hxc : x = c := by simpa using hc
      subst hxc
      simp [recordRate_of_ne_zero _ hr]

/-- C3 fails as stated: a second `synthesize` under the same handle, whose only
chunk has samples at 16000 Hz, leaves `getLastSampleRate()` at the 22050 Hz
recorded by the first call. -/
theorem second_call_keeps_first_rate :
    synthesize scripted 2 readySession { eng := twoCalls, log := [] } "one" =
      some ([0, 1], ratedSession,
        { eng := twoCallsRest,
          log := [EngineCall.defaultOptions 7, EngineCall.start 7 "one", EngineCall.next 7] }) ∧
    (processed scripted 7 (startState scripted twoCallsRest 7 "two") 0).find?
      (fun c => c.hasSamples) = some (mkChunk 10 2 16000 false) ∧
    (synthesize scripted 2 ratedSession
        { eng := twoCallsRest,
          log := [EngineCall.defaultOptions 7, EngineCall.start 7 "one", EngineCall.next 7] }
        "two").map (fun r => (r.1, getLastSampleRate r.2.1)) = some ([10, 11], 22050) :=
  ⟨rfl, by decide, by decide⟩

/-- C3, amended: on a live handle, after a `synthesize` call whose loop ends at
pull `n` and whose processed chunks contain one with samples, the first such
being `c`: when a rate was already recorded before the call,
`getLastSampleRate()` still returns that rate; when none was and `c` reports a
non-zero rate, it returns the rate of `c`. -/
theorem getLastSampleRate_after_synthesize {σ ω : Type} (E : Engine σ ω)
    (s : PiperSynthesizer) (w : World σ) (h : Handle) (text : String) (n fuel : Nat)
    (c : piper_audio_chunk)
    (hlive : s.synth_ = some h) (htext : text ≠ "")
    (hstart : startStatus E w.eng h text = E.PIPER_OK)
    (hend : endsAt E h (startState E w.eng h text) n) (hfuel : n < fuel)
    (hc : (processed E h (startState E w.eng h text) n).find? (fun x => x.hasSamples) =
      some c) :
    ∃ a s1 w1, synthesize E fuel s w text = some (a, s1, w1) ∧
      (s.lastSampleRate_ ≠ 0 → getLastSampleRate s1 = s.lastSampleRate_) ∧
      (s.lastSampleRate_ = 0 → c.sample_rate ≠ 0 → getLastSampleRate s1 = c.sample_rate) := by
  refine ⟨_, _, _, synthesize_ends E s w h text n fuel hlive htext hstart hend hfuel, ?_, ?_⟩
  · intro hr
    exact recordRate_of_ne_zero _ hr _
  · intro hz hr
    simp only [getLastSampleRate, hz]
    exact recordRate_zero_first _ c hc hr

/-- C3, amended, on the second call of `twoCalls`: the rate stays 22050. -/
theorem getLastSampleRate_after_second_call :
    ∃ a s1 w1,
      synthesize scripted 2 ratedSession { eng := twoCallsRest, log := [] } "two" =
        some (a, s1, w1) ∧
      (ratedSession.lastSampleRate_ ≠ 0 →
        getLastSampleRate s1 = ratedSession.lastSampleRate_) ∧
      (ratedSession.lastSampleRate_ = 0 → (mkChunk 10 2 16000 false).sample_rate ≠ 0 →
        getLastSampleRate s1 = (mkChunk 10 2 16000 false).sample_rate) :=
  getLastSampleRate_after_synthesize scripted ratedSession { eng := twoCallsRest, log := [] }
    7 "two" 0 2 (mkChunk 10 2 16000 false) rfl (by decide) rfl (by decide) (by decide)
    (by decide)

/-- C4 fails as stated: with no rate recorded, a first chunk with samples that
reports rate 0 leaves the rate unset, and the next chunk sets it to 22050. -/
theorem zero_rate_chunk_does_not_win :
    (processed scripted 7 (startState scripted zeroRateFirst 7 "hello") 1).find?
      (fun c => c.hasSamples) = some (mkChunk 0 2 0 false) ∧
    readySession.lastSampleRate_ = 0 ∧
    (synthesize scripted 3 readySession { eng := zeroRateFirst, log := [] } "hello").map
      (fun r => (r.1, r.2.1.lastSampleRate_)) = some ([0, 1, 10, 11], 22050) := by
  refine ⟨?_, ?_, ?_⟩ <;> decide

/-- C4, amended: on a live handle with no rate recorded, after a `synthesize`
call whose loop ends at pull `n`, `lastSampleRate_` is the rate of the first
processed chunk that has samples and reports a non-zero rate (0 when there is
none), whatever later chunks report, and the result is the samples of all
processed chunks in order. -/
theorem synthesize_records_first_rate {σ ω : Type} (E : Engine σ ω)
    (s : PiperSynthesizer) (w : World σ) (h : Handle) (text : String) (n fuel : Nat)
    (hlive : s.synth_ = some h) (htext : text ≠ "")
    (hstart : startStatus E w.eng h text = E.PIPER_OK)
    (hzero : s.lastSampleRate_ = 0)
    (hend : endsAt E h (startState E w.eng h text) n) (hfuel : n < fuel) :
    ∃ s1 w1,
      synthesize E fuel s w text =
        some (concatSamples (processed E h (startState E w.eng h text) n), s1, w1) ∧
      s1.lastSampleRate_ =
        (((processed E h (startState E w.eng h text) n).find?
          (fun c => c.hasSamples && decide (c.sample_rate ≠ 0))).map
            (fun c => c.sample_rate)).getD 0 := by
  refine ⟨_, _, synthesize_ends E s w h text n fuel hlive htext hstart hend hfuel, ?_⟩
  simp only [hzero]
  exact recordRate_zero _

/-- C4, amended, on `mixedRates`: the empty chunk is skipped, 22050 is recorded,
and the 16000 Hz chunk is still appended. -/
theorem synthesize_mixed_rates :
    ∃ s1 w1,
      synthesize scripted 3 readySession { eng := mixedRates, log := [] } "hello" =
        some ([0, 1, 10, 11], s1, w1) ∧
      s1.lastSampleRate_ = 22050 :=
  synthesize_records_first_rate scripted readySession { eng := mixedRates, log := [] }
    7 "hello" 2 3 rfl (by decide) rfl rfl (by decide) (by decide)

/-- C5: `synthesize("")` in any state, and `synthesize(t)` in any state without
a handle, return the empty sequence and leave the session and the world (engine
state and call log) exactly as they were: no engine call is made. -/
theorem synthesize_precondition_failure {σ ω : Type} (E : Engine σ ω) (fuel : Nat)
    (s : PiperSynthesizer) (w : World σ) :
    synthesize E fuel s w "" = some ([], s, w) ∧
    ∀ t : String, s.synth_ = none → synthesize E fuel s w t = some ([], s, w) := by
  constructor
  · unfold synthesize
    cases s.synth_ <;> simp
  · intro t hnone
    unfold synthesize
    rw [hnone]

/-- C5 on a session with a recorded rate (empty text) and on the fresh session
(no handle). -/
theorem synthesize_precondition_failure_examples :
    synthesize scripted 0 ratedSession { eng := threeChunks, log := [] } "" =
      some ([], ratedSession, { eng := threeChunks, log := [] }) ∧
    synthesize scripted 0 PiperSynthesizer.fresh { eng := threeChunks, log := [] } "hello" =
      some ([], PiperSynthesizer.fresh, { eng := threeChunks, log := [] }) :=
  ⟨(synthesize_precondition_failure scripted 0 ratedSession
      { eng := threeChunks, log := [] }).1,
    (synthesize_precondition_failure scripted 0 PiperSynthesizer.fresh
      { eng := threeChunks, log := [] }).2 "hello" rfl⟩

/-! ## Claims about `initVoice` -/

/-- C6: `initVoice` with a key that is not in the registry returns `false` and
leaves the session and the world (engine state and call log) exactly as they
were: no `piper_create` and no `piper_free` is issued. -/
theorem initVoice_unregistered {σ ω : Type} (E : Engine σ ω) (s : PiperSynthesizer)
    (w : World σ) (voice_key : String) (hkey : mapFind s.voices_ voice_key = none) :
    initVoice E s w voice_key = (false, s, w) := by
  unfold initVoice
  rw [hkey]

/-- C6 on a ready session: asking for the unregistered `fr` changes nothing. -/
theorem initVoice_unregistered_example :
    initVoice scripted twoVoiceSession { eng := createGives9, log := [] } "fr" =
      (false, twoVoiceSession, { eng := createGives9, log := [] }) :=
  initVoice_unregistered scripted twoVoiceSession { eng := createGives9, log := [] } "fr"
    (by decide)

/-- Unfolding of `initVoice` on a key the registry does not hold. -/
theorem initVoice_not_found {σ ω : Type} (E : Engine σ ω) (s : PiperSynthesizer)
    (w : World σ) (voice_key : String) (hkey : mapFind s.voices_ voice_key = none) :
    initVoice E s w voice_key = (false, s, w) := by
  simp only [initVoice, hkey]

/-- Unfolding of `initVoice` on a registered key. -/
theorem initVoice_registered {σ ω : Type} (E : Engine σ ω) (s : PiperSynthesizer)
    (w : World σ) (voice_key model json : String)
    (hkey : mapFind s.voices_ voice_key = some (model, json)) :
    initVoice E s w voice_key =
      match (E.piper_create (cleanup E s w).2.eng model json "./espeak-ng-data").1 with
      | none =>
        (false, { (cleanup E s w).1 with synth_ := none },
          { eng := (E.piper_create (cleanup E s w).2.eng model json "./espeak-ng-data").2,
            log := (cleanup E s w).2.log ++
              [EngineCall.create model json "./espeak-ng-data" none] })
      | some hnew =>
        (true,
          { (cleanup E s w).1 with
            synth_ := some hnew, currentVoice_ := voice_key, lastSampleRate_ := 0 },
          { eng := (E.piper_create (cleanup E s w).2.eng model json "./espeak-ng-data").2,
            log := (cleanup E s w).2.log ++
              [EngineCall.create model json "./espeak-ng-data" (some hnew)] }) := by
  unfold initVoice
  rw [hkey]
  simp only []
  cases hr : (E.piper_create (cleanup E s w).2.eng model json "./espeak-ng-data").1 <;> rfl

theorem cleanup_voices {σ ω : Type} (E : Engine σ ω) (s : PiperSynthesizer) (w : World σ) :
    (cleanup E s w).1.voices_ = s.voices_ ∧
    (cleanup E s w).1.currentVoice_ = s.currentVoice_ ∧
    (cleanup E s w).1.synth_ = none ∧
    (cleanup E s w).1.lastSampleRate_ = (if s.synth_.isSome then 0 else s.lastSampleRate_) := by
  unfold cleanup
  cases hs : s.synth_ <;> simp [hs]

theorem cleanup_log {σ ω : Type} (E : Engine σ ω) (s : PiperSynthesizer) (w : World σ) :
    (cleanup E s w).2.log =
      w.log ++ (match s.synth_ with
        | some h => [EngineCall.free h]
        | none => []) := by
  unfold cleanup
  cases hs : s.synth_ <;> simp

/-- C7 fails as stated: on a session that is ready with voice `en_us`, a failed
creation for the registered `de` returns `false` and drops the handle, but the
stored voice key is still `en_us`, not empty. -/
theorem failed_create_keeps_voice_key :
    mapFind twoVoiceSession.voices_ "de" = some ("de.onnx", "de.json") ∧
    (initVoice scripted twoVoiceSession { eng := createFails, log := [] } "de").1 = false ∧
    (initVoice scripted twoVoiceSession { eng := createFails, log := [] } "de").2.1.synth_ =
      none ∧
    (initVoice scripted twoVoiceSession
      { eng := createFails, log := [] } "de").2.1.currentVoice_ = "en_us" ∧
    (initVoice scripted twoVoiceSession
      { eng := createFails, log := [] } "de").2.1.currentVoice_ ≠ "" := by
  refine ⟨?_, ?_, ?_, ?_, ?_⟩ <;> decide

/-- C7, amended: for a registered key whose `piper_create` fails, `initVoice`
returns `false` and the session ends with no handle; the stored voice key is
not cleared but keeps the value it had before the call. -/
theorem initVoice_create_fails {σ ω : Type} (E : Engine σ ω) (s : PiperSynthesizer)
    (w : World σ) (voice_key model json : String)
    (hkey : mapFind s.voices_ voice_key = some (model, json))
    (hfail : (E.piper_create (cleanup E s w).2.eng model json "./espeak-ng-data").1 = none) :
    (initVoice E s w voice_key).1 = false ∧
    (initVoice E s w voice_key).2.1.synth_ = none ∧
    (initVoice E s w voice_key).2.1.currentVoice_ = s.currentVoice_ := by
  rw [initVoice_registered E s w voice_key model json hkey, hfail]
  exact ⟨rfl, rfl, (cleanup_voices E s w).2.1⟩

/-- C7, amended, on the ready session: the handle is gone, `en_us` stays. -/
theorem initVoice_create_fails_example :
    (initVoice scripted twoVoiceSession { eng := createFails, log := [] } "de").1 = false ∧
    (initVoice scripted twoVoiceSession { eng := createFails, log := [] } "de").2.1.synth_ =
      none ∧
    (initVoice scripted twoVoiceSession
      { eng := createFails, log := [] } "de").2.1.currentVoice_ =
      twoVoiceSession.currentVoice_ :=
  initVoice_create_fails scripted twoVoiceSession { eng := createFails, log := [] }
    "de" "de.onnx" "de.json" (by decide) (by decide)

/-- C8 fails as stated: on a ready session that has recorded 22050 Hz, a failed
creation returns `false` but has released the handle and reset the rate. -/
theorem failed_create_changes_session :
    (initVoice scripted twoVoiceSession { eng := createFails, log := [] } "de").1 = false ∧
    twoVoiceSession.synth_ = some 7 ∧ twoVoiceSession.lastSampleRate_ = 22050 ∧
    (initVoice scripted twoVoiceSession { eng := createFails, log := [] } "de").2.1.synth_ =
      none ∧
    (initVoice scripted twoVoiceSession
      { eng := createFails, log := [] } "de").2.1.lastSampleRate_ = 0 ∧
    (initVoice scripted twoVoiceSession { eng := createFails, log := [] } "de").2.2.log =
      [EngineCall.free 7, EngineCall.create "de.onnx" "de.json" "./espeak-ng-data" none] := by
  refine ⟨?_, ?_, ?_, ?_, ?_, ?_⟩ <;> decide

/-- C8, amended: whenever `initVoice` returns `false`, the registry and the
stored voice key are as before the call.  When the key is not registered the
whole session and the world are as before.  When it is registered (so creation
failed) the handle owned before, if any, has been released before the creation
request, the session ends without a handle, and `lastSampleRate_` is 0 if a
handle was owned before the call and unchanged otherwise. -/
theorem initVoice_failure_effect {σ ω : Type} (E : Engine σ ω) (s : PiperSynthesizer)
    (w : World σ) (voice_key : String) (hfalse : (initVoice E s w voice_key).1 = false) :
    (initVoice E s w voice_key).2.1.voices_ = s.voices_ ∧
    (initVoice E s w voice_key).2.1.currentVoice_ = s.currentVoice_ ∧
    (mapFind s.voices_ voice_key = none →
      (initVoice E s w voice_key).2.1 = s ∧ (initVoice E s w voice_key).2.2 = w) ∧
    (∀ model json : String, mapFind s.voices_ voice_key = some (model, json) →
      (initVoice E s w voice_key).2.1.synth_ = none ∧
      (initVoice E s w voice_key).2.1.lastSampleRate_ =
        (if s.synth_.isSome then 0 else s.lastSampleRate_) ∧
      (initVoice E s w voice_key).2.2.log =
        w.log ++ (match s.synth_ with
          | some h => [EngineCall.free h]
          | none => []) ++
          [EngineCall.create model json "./espeak-ng-data" none]) := by
  cases hkey : mapFind s.voices_ voice_key with
  | none =>
    rw [initVoice_not_found E s w voice_key hkey]
    simp
  | some mj =>
    obtain ⟨model, json⟩ := mj
    rw [initVoice_registered E s w voice_key model json hkey] at hfalse ⊢
    cases hr : (E.piper_create (cleanup E s w).2.eng model json "./espeak-ng-data").1 with
    | none =>
      have hc := cleanup_voices E s w
      refine ⟨hc.1, hc.2.1, fun hn => by simp at hn, ?_⟩
      intro m j hmj
      have hm : model = m := by simpa using congrArg (fun o => o.map Prod.fst) hmj
      have hj : json = j := by simpa using congrArg (fun o => o.map Prod.snd) hmj
      subst hm hj
      refine ⟨rfl, hc.2.2.2, ?_⟩
      simp only [cleanup_log]
    | some hnew =>
      rw [hr] at hfalse
      simp at hfalse

/-- C8, amended, on the ready session with a failing creation: registry and
voice key stay, handle `7` is released and the rate is reset. -/
theorem initVoice_failure_effect_example :
    (initVoice scripted twoVoiceSession { eng := createFails, log := [] } "de").2.1.voices_ =
      twoVoiceSession.voices_ ∧
    (initVoice scripted twoVoiceSession
      { eng := createFails, log := [] } "de").2.1.currentVoice_ = "en_us" ∧
    (initVoice scripted twoVoiceSession { eng := createFails, log := [] } "de").2.1.synth_ =
      none ∧
    (initVoice scripted twoVoiceSession
      { eng := createFails, log := [] } "de").2.1.lastSampleRate_ = 0 ∧
    (initVoice scripted twoVoiceSession { eng := createFails, log := [] } "de").2.2.log =
      [EngineCall.free 7, EngineCall.create "de.onnx" "de.json" "./espeak-ng-data" none] :=
  have key := initVoice_failure_effect scripted twoVoiceSession
    { eng := createFails, log := [] } "de" (by decide)
  ⟨key.1, key.2.1, (key.2.2.2 "de.onnx" "de.json" (by decide)).1,
    (key.2.2.2 "de.onnx" "de.json" (by decide)).2.1,
    (key.2.2.2 "de.onnx" "de.json" (by decide)).2.2⟩

/-- C9: for a registered key whose `piper_create` succeeds, `initVoice` returns
`true`; the engine calls it adds to the log are the release of the handle owned
before (if any) followed by one creation request with the model and json paths
the registry holds for the key and the directory `./espeak-ng-data`; and the
session ends owning the new handle with `currentVoice_` equal to the key,
`lastSampleRate_` 0 and the registry unchanged. -/
theorem initVoice_success {σ ω : Type} (E : Engine σ ω) (s : PiperSynthesizer)
    (w : World σ) (voice_key model json : String) (hnew : Handle)
    (hkey : mapFind s.voices_ voice_key = some (model, json))
    (hcreate : (E.piper_create (cleanup E s w).2.eng model json "./espeak-ng-data").1 =
      some hnew) :
    (initVoice E s w voice_key).1 = true ∧
    (initVoice E s w voice_key).2.2.log =
      w.log ++ (match s.synth_ with
        | some h => [EngineCall.free h]
        | none => []) ++
        [EngineCall.create model json "./espeak-ng-data" (some hnew)] ∧
    (initVoice E s w voice_key).2.1 =
      { synth_ := some hnew, voices_ := s.voices_, currentVoice_ := voice_key,
        lastSampleRate_ := 0 } := by
  rw [initVoice_registered E s w voice_key model json hkey, hcreate]
  refine ⟨rfl, ?_, ?_⟩
  · simp only [cleanup_log]
  · simp only [(cleanup_voices E s w).1]

/-- C9 on the ready session: handle `7` is released, then `de` is created from
its registered paths and becomes the owned handle `9`. -/
theorem initVoice_success_example :
    (initVoice scripted twoVoiceSession { eng := createGives9, log := [] } "de").1 = true ∧
    (initVoice scripted twoVoiceSession { eng := createGives9, log := [] } "de").2.2.log =
      [] ++ [EngineCall.free 7] ++
        [EngineCall.create "de.onnx" "de.json" "./espeak-ng-data" (some 9)] ∧
    (initVoice scripted twoVoiceSession { eng := createGives9, log := [] } "de").2.1 =
      { synth_ := some 9, voices_ := twoVoiceSession.voices_, currentVoice_ := "de",
        lastSampleRate_ := 0 } :=
  initVoice_success scripted twoVoiceSession { eng := createGives9, log := [] }
    "de" "de.onnx" "de.json" 9 (by decide) (by decide)

/-! ## Counting creations and releases -/

theorem cleanup_balanced {σ ω : Type} (E : Engine σ ω) (s : PiperSynthesizer) (w : World σ)
    (hb : balanced s w.log) :
    creates (cleanup E s w).2.log = releases (cleanup E s w).2.log ∧
    (cleanup E s w).1.synth_ = none := by
  refine ⟨?_, (cleanup_voices E s w).2.2.1⟩
  unfold balanced at hb
  rw [cleanup_log]
  cases hs : s.synth_ with
  | none =>
    rw [hs] at hb
    simpa using hb
  | some h =>
    rw [hs] at hb
    simp only [creates_append, releases_append, creates, releases]
    simp only [Option.isSome_some, if_true] at hb
    omega

theorem initVoice_balanced {σ ω : Type} (E : Engine σ ω) (s : PiperSynthesizer) (w : World σ)
    (voice_key : String) (hb : balanced s w.log) :
    balanced (initVoice E s w voice_key).2.1 (initVoice E s w voice_key).2.2.log := by
  cases hkey : mapFind s.voices_ voice_key with
  | none =>
    rw [initVoice_not_found E s w voice_key hkey]
    exact hb
  | some mj =>
    obtain ⟨model, json⟩ := mj
    have hc := cleanup_balanced E s w hb
    rw [initVoice_registered E s w voice_key model json hkey]
    cases hr : (E.piper_create (cleanup E s w).2.eng model json "./espeak-ng-data").1 with
    | none =>
      simp only [balanced, creates_append, releases_append, creates, releases]
      simp
      exact hc.1
    | some hnew =>
      simp only [balanced, creates_append, releases_append, creates, releases]
      simp
      exact hc.1

/-- The loop adds only `next` calls to the log. -/
theorem synthLoop_counts {σ ω : Type} (E : Engine σ ω) (h : Handle) :
    ∀ (fuel : Nat) (w : World σ) (rate : Int) (acc : List Sample)
      (r : World σ × Int × List Sample),
      synthLoop E h fuel w rate acc = some r →
      creates r.1.log = creates w.log ∧ releases r.1.log = releases w.log := by
  intro fuel
  induction fuel with
  | zero =>
    intro w rate acc r hr
    simp [synthLoop] at hr
  | succ f ih =>
    intro w rate acc r hr
    simp only [synthLoop] at hr
    split at hr
    · simp only [Option.some.injEq] at hr
      subst hr
      simp [creates_append, releases_append, creates, releases]
    · split at hr
      · simp only [Option.some.injEq] at hr
        subst hr
        simp [creates_append, releases_append, creates, releases]
      · have h1 := ih _ _ _ r hr
        simpa [creates_append, releases_append, creates, releases] using h1

/-- A `synthesize` call that returns leaves handle, registry and voice key as
they were, and adds no creation and no release to the log. -/
theorem synthesize_frame {σ ω : Type} (E : Engine σ ω) (fuel : Nat) (s : PiperSynthesizer)
    (w : World σ) (text : String) (r : List Sample × PiperSynthesizer × World σ)
    (hr : synthesize E fuel s w text = some r) :
    r.2.1.synth_ = s.synth_ ∧ r.2.1.voices_ = s.voices_ ∧
    r.2.1.currentVoice_ = s.currentVoice_ ∧
    creates r.2.2.log = creates w.log ∧ releases r.2.2.log = releases w.log := by
  unfold synthesize at hr
  cases hs : s.synth_ with
  | none =>
    rw [hs] at hr
    simp only [Option.some.injEq] at hr
    subst hr
    simp [hs]
  | some h =>
    rw [hs] at hr
    simp only [] at hr
    split at hr
    · simp only [Option.some.injEq] at hr
      subst hr
      simp [hs]
    · split at hr
      · simp only [Option.some.injEq] at hr
        subst hr
        simp [hs, creates_append, releases_append, creates, releases]
      · split at hr
        · simp at hr
        · rename_i w3 rate acc hloop
          simp only [Option.some.injEq] at hr
          subst hr
          have hc := synthLoop_counts E h fuel _ _ _ _ hloop
          simp only [hs] at hc ⊢
          simpa [creates_append, releases_append, creates, releases] using hc

theorem step_balanced {σ ω : Type} (E : Engine σ ω) (fuel : Nat) (s : PiperSynthesizer)
    (w : World σ) (op : Op) (r : PiperSynthesizer × World σ)
    (hb : balanced s w.log) (hr : step E fuel s w op = some r) : balanced r.1 r.2.log := by
  cases op with
  | registerVoice fe k m j =>
    simp only [step, Option.some.injEq] at hr
    subst hr
    have hsy : (registerVoice fe s k m j).synth_ = s.synth_ := by
      unfold registerVoice
      split
      · rfl
      · split
        · rfl
        · split <;> rfl
    simpa [balanced, hsy] using hb
  | initVoice k =>
    simp only [step, Option.some.injEq] at hr
    subst hr
    exact initVoice_balanced E s w k hb
  | synthesize text =>
    simp only [step] at hr
    cases hsyn : synthesize E fuel s w text with
    | none => simp [hsyn] at hr
    | some x =>
      rw [hsyn] at hr
      simp only [Option.map_some', Option.some.injEq] at hr
      subst hr
      have hf := synthesize_frame E fuel s w text x hsyn
      unfold balanced at hb ⊢
      rw [hf.1, hf.2.2.2.1, hf.2.2.2.2]
      exact hb
  | dispose =>
    simp only [step, Option.some.injEq, dispose] at hr
    subst hr
    have hc := cleanup_balanced E s w hb
    unfold balanced
    rw [hc.2]
    simpa using hc.1
  | getLastSampleRate =>
    simp only [step, Option.some.injEq] at hr
    subst hr
    exact hb
  | listVoices =>
    simp only [step, Option.some.injEq] at hr
    subst hr
    exact hb

theorem run_balanced {σ ω : Type} (E : Engine σ ω) (fuel : Nat) :
    ∀ (ops : List Op) (s : PiperSynthesizer) (w : World σ) (r : PiperSynthesizer × World σ),
      balanced s w.log → run E fuel ops s w = some r → balanced r.1 r.2.log := by
  intro ops
  induction ops with
  | nil =>
    intro s w r hb hr
    simp only [run, Option.some.injEq] at hr
    subst hr
    exact hb
  | cons op ops ih =>
    intro s w r hb hr
    simp only [run] at hr
    cases hst : step E fuel s w op with
    | none => simp [hst] at hr
    | some x =>
      rw [hst] at hr
      exact ih x.1 x.2 r (step_balanced E fuel s w op x hb hst) hr

theorem initVoice_true_owns {σ ω : Type} (E : Engine σ ω) (s : PiperSynthesizer) (w : World σ)
    (voice_key : String) (ht : (initVoice E s w voice_key).1 = true) :
    (initVoice E s w voice_key).2.1.synth_.isSome = true := by
  cases hkey : mapFind s.voices_ voice_key with
  | none =>
    rw [initVoice_not_found E s w voice_key hkey] at ht
    simp at ht
  | some mj =>
    obtain ⟨model, json⟩ := mj
    rw [initVoice_registered E s w voice_key model json hkey] at ht ⊢
    cases hr : (E.piper_create (cleanup E s w).2.eng model json "./espeak-ng-data").1 with
    | none =>
      rw [hr] at ht
      simp at ht
    | some hnew => rfl

/-- C10: after any finite sequence of public operations run on a fresh session
with an empty call log, against any engine, the number of successful creations
in the log is the number of releases plus 1 when the session owns a handle and
the number of releases when it owns none; and two further `initVoice` calls in
succession that both return `true` leave creations equal to releases plus 1,
that is exactly one handle alive. -/
theorem creates_match_releases {σ ω : Type} (E : Engine σ ω) (fuel : Nat) (ops : List Op)
    (e0 : σ) (s : PiperSynthesizer) (w : World σ)
    (hrun : run E fuel ops PiperSynthesizer.fresh { eng := e0, log := [] } = some (s, w)) :
    (s.synth_.isSome = true → creates w.log = releases w.log + 1) ∧
    (s.synth_ = none → creates w.log = releases w.log) ∧
    (∀ k1 k2 : String, (initVoice E s w k1).1 = true →
      (initVoice E (initVoice E s w k1).2.1 (initVoice E s w k1).2.2 k2).1 = true →
      creates (initVoice E (initVoice E s w k1).2.1 (initVoice E s w k1).2.2 k2).2.2.log =
        releases (initVoice E (initVoice E s w k1).2.1 (initVoice E s w k1).2.2 k2).2.2.log
          + 1) := by
  have h0 : balanced PiperSynthesizer.fresh ({ eng := e0, log := [] } : World σ).log := by
    simp [balanced, PiperSynthesizer.fresh, creates, releases]
  have hb : balanced s w.log := run_balanced E fuel ops _ _ (s, w) h0 hrun
  refine ⟨?_, ?_, ?_⟩
  · intro hs
    unfold balanced at hb
    simpa [hs] using hb
  · intro hs
    unfold balanced at hb
    simpa [hs] using hb
  · intro k1 k2 _ h2
    have hb1 := initVoice_balanced E s w k1 hb
    have hb2 := initVoice_balanced E _ _ k2 hb1
    have hown := initVoice_true_owns E _ _ k2 h2
    unfold balanced at hb2
    simpa [hown] using hb2

/-- C10 on the scenario of the spec: two voices are registered and activated
one after the other; at the end one handle is owned, two were created and one
was released. -/
theorem two_activations_one_handle :
    run scripted 2 twoActivations PiperSynthesizer.fresh { eng := twoCreates, log := [] } =
      some (afterTwoActivations,
        { eng := { twoCreates with createResults := [], pulls := [] },
          log := logTwoActivations }) ∧
    creates logTwoActivations = releases logTwoActivations + 1 ∧
    creates logTwoActivations = 2 ∧ releases logTwoActivations = 1 :=
  ⟨rfl,
    (creates_match_releases scripted 2 twoActivations twoCreates afterTwoActivations
      { eng := { twoCreates with createResults := [], pulls := [] },
        log := logTwoActivations } rfl).1 rfl,
    by decide, by decide⟩

/-! ## Inversion of the loop and of `synthesize` -/

/-- A loop that returns has ended at some pull within its fuel. -/
theorem synthLoop_some_endsAt {σ ω : Type} (E : Engine σ ω) (h : Handle) :
    ∀ (fuel : Nat) (w : World σ) (rate : Int) (acc : List Sample)
      (r : World σ × Int × List Sample),
      synthLoop E h fuel w rate acc = some r → ∃ n, n < fuel ∧ endsAt E h w.eng n := by
  intro fuel
  induction fuel with
  | zero =>
    intro w rate acc r hr
    simp [synthLoop] at hr
  | succ f ih =>
    intro w rate acc r hr
    by_cases he : isError E (pull E h w.eng 0)
    · exact ⟨0, Nat.succ_pos f, fun i hi => absurd hi (Nat.not_lt_zero i), Or.inl he⟩
    · by_cases hf : isFinal E (pull E h w.eng 0)
      · exact ⟨0, Nat.succ_pos f, fun i hi => absurd hi (Nat.not_lt_zero i), Or.inr hf⟩
      · rw [synthLoop_continue E h f w rate acc he hf] at hr
        obtain ⟨n, hn, hpre, hlast⟩ := ih _ _ _ r hr
        refine ⟨n + 1, Nat.succ_lt_succ hn, ?_, ?_⟩
        · intro i hi
          cases i with
          | zero => exact ⟨he, hf⟩
          | succ j =>
            rw [pull_succ]
            exact hpre j (Nat.lt_of_succ_lt_succ hi)
        · rw [pull_succ]
          exact hlast

/-- Every way in which `synthesize` can return: a precondition failure, a
failed start, or a loop that ended at some pull `n`. -/
theorem synthesize_cases {σ ω : Type} (E : Engine σ ω) (fuel : Nat) (s : PiperSynthesizer)
    (w : World σ) (text : String) (r : List Sample × PiperSynthesizer × World σ)
    (hr : synthesize E fuel s w text = some r) :
    r = ([], s, w) ∨
    (∃ h, s.synth_ = some h ∧ text ≠ "" ∧ startStatus E w.eng h text ≠ E.PIPER_OK ∧
      r = ([], s,
        { eng := startState E w.eng h text,
          log := w.log ++ [EngineCall.defaultOptions h, EngineCall.start h text] })) ∨
    (∃ h n, s.synth_ = some h ∧ text ≠ "" ∧ startStatus E w.eng h text = E.PIPER_OK ∧
      n < fuel ∧ endsAt E h (startState E w.eng h text) n ∧
      r = (concatSamples (processed E h (startState E w.eng h text) n),
        { s with lastSampleRate_ :=
            recordRate s.lastSampleRate_ (processed E h (startState E w.eng h text) n) },
        { eng := afterPulls E h (n + 1) (startState E w.eng h text),
          log := w.log ++ [EngineCall.defaultOptions h, EngineCall.start h text] ++
            List.replicate (n + 1) (EngineCall.next h) })) := by
  cases hs : s.synth_ with
  | none =>
    left
    simp only [synthesize, hs, Option.some.injEq] at hr
    exact hr.symm
  | some h =>
    by_cases ht : text = ""
    · left
      simp only [synthesize, hs, ht, if_true, Option.some.injEq] at hr
      exact hr.symm
    · by_cases hst : startStatus E w.eng h text = E.PIPER_OK
      · right
        right
        have hr2 := hr
        rw [synthesize_started E fuel s w h text hs ht hst] at hr2
        cases hl : synthLoop E h fuel
            { eng := startState E w.eng h text,
              log := w.log ++ [EngineCall.defaultOptions h, EngineCall.start h text] }
            s.lastSampleRate_ [] with
        | none =>
          rw [hl] at hr2
          simp at hr2
        | some x =>
          obtain ⟨n, hn, hend⟩ := synthLoop_some_endsAt E h fuel _ _ _ x hl
          refine ⟨h, n, rfl, ht, hst, hn, hend, ?_⟩
          rw [synthesize_ends E s w h text n fuel hs ht hst hend hn] at hr
          simp only [Option.some.injEq, hs] at hr
          exact hr.symm
      · right
        left
        refine ⟨h, rfl, ht, hst, ?_⟩
        unfold startStatus at hst
        simp only [synthesize, hs, if_neg ht, startState] at hr
        rw [if_pos (by simpa using hst)] at hr
        simp only [Option.some.injEq] at hr
        exact hr.symm

/-! ## Handle lifetimes -/

theorem lifetimes_append (l1 : List EngineCall) :
    ∀ (live : Option Handle) (l2 : List EngineCall),
      lifetimes live (l1 ++ l2) = (lifetimes live l1).bind (fun x => lifetimes x l2) := by
  induction l1 with
  | nil =>
    intro live l2
    simp [lifetimes]
  | cons c l ih =>
    intro live l2
    cases c with
    | create m j d r =>
      simp only [List.cons_append, lifetimes]
      split
      · exact ih _ _
      · rfl
    | free x =>
      simp only [List.cons_append, lifetimes]
      split
      · exact ih _ _
      · rfl
    | defaultOptions x =>
      simp only [List.cons_append, lifetimes]
      split
      · exact ih _ _
      · rfl
    | start x y =>
      simp only [List.cons_append, lifetimes]
      split
      · exact ih _ _
      · rfl
    | next x =>
      simp only [List.cons_append, lifetimes]
      split
      · exact ih _ _
      · rfl

theorem lifetimes_nexts (h : Handle) (k : Nat) :
    lifetimes (some h) (List.replicate k (EngineCall.next h)) = some (some h) := by
  induction k with
  | zero => rfl
  | succ k ih => simpa [List.replicate_succ, lifetimes] using ih

theorem cleanup_lifetimes {σ ω : Type} (E : Engine σ ω) (s : PiperSynthesizer) (w : World σ)
    (hl : lifetimes none w.log = some s.synth_) :
    lifetimes none (cleanup E s w).2.log = some none := by
  rw [cleanup_log, lifetimes_append, hl]
  cases hs : s.synth_ with
  | none => simp [lifetimes]
  | some h => simp [lifetimes]

theorem initVoice_lifetimes {σ ω : Type} (E : Engine σ ω) (s : PiperSynthesizer)
    (w : World σ) (voice_key : String) (hl : lifetimes none w.log = some s.synth_) :
    lifetimes none (initVoice E s w voice_key).2.2.log =
      some (initVoice E s w voice_key).2.1.synth_ := by
  cases hkey : mapFind s.voices_ voice_key with
  | none =>
    rw [initVoice_not_found E s w voice_key hkey]
    exact hl
  | some mj =>
    obtain ⟨model, json⟩ := mj
    have hc := cleanup_lifetimes E s w hl
    rw [initVoice_registered E s w voice_key model json hkey]
    cases hr : (E.piper_create (cleanup E s w).2.eng model json "./espeak-ng-data").1 with
    | none => simp [lifetimes_append, hc, lifetimes]
    | some hnew => simp [lifetimes_append, hc, lifetimes]

theorem synthesize_lifetimes {σ ω : Type} (E : Engine σ ω) (fuel : Nat)
    (s : PiperSynthesizer) (w : World σ) (text : String)
    (r : List Sample × PiperSynthesizer × World σ)
    (hl : lifetimes none w.log = some s.synth_)
    (hr : synthesize E fuel s w text = some r) :
    lifetimes none r.2.2.log = some r.2.1.synth_ := by
  rcases synthesize_cases E fuel s w text r hr with h1 | ⟨h, hs, _, _, h2⟩ |
    ⟨h, n, hs, _, _, _, _, h3⟩
  · rw [h1]
    exact hl
  · rw [h2]
    simp [lifetimes_append, hl, hs, lifetimes]
  · rw [h3]
    simp [lifetimes_append, hl, hs, lifetimes, lifetimes_nexts]

theorem step_lifetimes {σ ω : Type} (E : Engine σ ω) (fuel : Nat) (s : PiperSynthesizer)
    (w : World σ) (op : Op) (r : PiperSynthesizer × World σ)
    (hl : lifetimes none w.log = some s.synth_) (hr : step E fuel s w op = some r) :
    lifetimes none r.2.log = some r.1.synth_ := by
  cases op with
  | registerVoice fe k m j =>
    simp only [step, Option.some.injEq] at hr
    subst hr
    have hsy : (registerVoice fe s k m j).synth_ = s.synth_ := by
      unfold registerVoice
      split
      · rfl
      · split
        · rfl
        · split <;> rfl
    simpa [hsy] using hl
  | initVoice k =>
    simp only [step, Option.some.injEq] at hr
    subst hr
    exact initVoice_lifetimes E s w k hl
  | synthesize text =>
    simp only [step] at hr
    cases hsyn : synthesize E fuel s w text with
    | none => simp [hsyn] at hr
    | some x =>
      rw [hsyn] at hr
      simp only [Option.map_some', Option.some.injEq] at hr
      subst hr
      exact synthesize_lifetimes E fuel s w text x hl hsyn
  | dispose =>
    simp only [step, Option.some.injEq, dispose] at hr
    subst hr
    rw [cleanup_lifetimes E s w hl, (cleanup_voices E s w).2.2.1]
  | getLastSampleRate =>
    simp only [step, Option.some.injEq] at hr
    subst hr
    exact hl
  | listVoices =>
    simp only [step, Option.some.injEq] at hr
    subst hr
    exact hl

theorem run_lifetimes {σ ω : Type} (E : Engine σ ω) (fuel : Nat) :
    ∀ (ops : List Op) (s : PiperSynthesizer) (w : World σ) (r : PiperSynthesizer × World σ),
      lifetimes none w.log = some s.synth_ → run E fuel ops s w = some r →
      lifetimes none r.2.log = some r.1.synth_ := by
  intro ops
  induction ops with
  | nil =>
    intro s w r hl hr
    simp only [run, Option.some.injEq] at hr
    subst hr
    exact hl
  | cons op ops ih =>
    intro s w r hl hr
    simp only [run] at hr
    cases hst : step E fuel s w op with
    | none => simp [hst] at hr
    | some x =>
      rw [hst] at hr
      exact ih x.1 x.2 r (step_lifetimes E fuel s w op x hl hst) hr

/-- In a log that `lifetimes` accepts, the creations and releases of each
handle differ only by whether the handle is live at the start and at the end. -/
theorem lifetimes_counts (h : Handle) (log : List EngineCall) :
    ∀ (live last : Option Handle), lifetimes live log = some last →
      createsOf h log + (if live = some h then 1 else 0) =
        releasesOf h log + (if last = some h then 1 else 0) := by
  induction log with
  | nil =>
    intro live last hl
    simp only [lifetimes, Option.some.injEq] at hl
    subst hl
    simp [createsOf, releasesOf]
  | cons c cs ih =>
    intro live last hl
    cases c with
    | create m j d r =>
      simp only [lifetimes] at hl
      split at hl
      · rename_i hnone
        have h1 := ih r last hl
        subst hnone
        simp only [createsOf, releasesOf]
        simp only [reduceCtorEq, if_false]
        omega
      · simp at hl
    | free x =>
      simp only [lifetimes] at hl
      split at hl
      · rename_i hx
        have h1 := ih none last hl
        subst hx
        simp only [createsOf, releasesOf, Option.some.injEq]
        simp only [reduceCtorEq, if_false] at h1
        omega
      · simp at hl
    | defaultOptions x =>
      simp only [lifetimes] at hl
      split at hl
      · simpa [createsOf, releasesOf] using ih live last hl
      · simp at hl
    | start x y =>
      simp only [lifetimes] at hl
      split at hl
      · simpa [createsOf, releasesOf] using ih live last hl
      · simp at hl
    | next x =>
      simp only [lifetimes] at hl
      split at hl
      · simpa [createsOf, releasesOf] using ih live last hl
      · simp at hl

/-- C11: after any finite sequence of public operations on a fresh session,
followed by the destructor, the call log is accepted by `lifetimes` and ends
with no live handle: every successful creation is followed by exactly one
release of the handle it returned, before the next creation and before the end;
no release is issued on a handle that is not live; and default-options, start
and next are issued only on the live handle, never after its release.  For each
handle the creations that returned it are as many as its releases, and the
session ends without a handle. -/
theorem teardown_releases_every_handle {σ ω : Type} (E : Engine σ ω) (fuel : Nat)
    (ops : List Op) (e0 : σ) (s : PiperSynthesizer) (w : World σ)
    (hrun : run E fuel ops PiperSynthesizer.fresh { eng := e0, log := [] } = some (s, w)) :
    lifetimes none (destroy E s w).2.log = some none ∧
    (∀ h : Handle, createsOf h (destroy E s w).2.log = releasesOf h (destroy E s w).2.log) ∧
    creates (destroy E s w).2.log = releases (destroy E s w).2.log ∧
    (destroy E s w).1.synth_ = none := by
  have hl : lifetimes none w.log = some s.synth_ :=
    run_lifetimes E fuel ops PiperSynthesizer.fresh { eng := e0, log := [] } (s, w) rfl hrun
  have h0 : balanced PiperSynthesizer.fresh ({ eng := e0, log := [] } : World σ).log := by
    simp [balanced, PiperSynthesizer.fresh, creates, releases]
  have hb : balanced s w.log := run_balanced E fuel ops _ _ (s, w) h0 hrun
  have hd : lifetimes none (destroy E s w).2.log = some none := cleanup_lifetimes E s w hl
  refine ⟨hd, ?_, (cleanup_balanced E s w hb).1, (cleanup_voices E s w).2.2.1⟩
  intro h
  simpa using lifetimes_counts h _ none none hd

/-- C11 on the two-activation run: handles `1` and `2` are each created once and
released once, `2` by the destructor. -/
theorem teardown_after_two_activations :
    (destroy scripted afterTwoActivations
      { eng := { twoCreates with createResults := [], pulls := [] },
        log := logTwoActivations }).2.log = logTwoActivations ++ [EngineCall.free 2] ∧
    lifetimes none (logTwoActivations ++ [EngineCall.free 2]) = some none ∧
    createsOf 1 (logTwoActivations ++ [EngineCall.free 2]) = 1 ∧
    releasesOf 1 (logTwoActivations ++ [EngineCall.free 2]) = 1 ∧
    createsOf 2 (logTwoActivations ++ [EngineCall.free 2]) = 1 ∧
    releasesOf 2 (logTwoActivations ++ [EngineCall.free 2]) = 1 :=
  ⟨rfl,
    (teardown_releases_every_handle scripted 2 twoActivations twoCreates afterTwoActivations
      { eng := { twoCreates with createResults := [], pulls := [] },
        log := logTwoActivations } rfl).1,
    by decide, by decide, by decide, by decide⟩

/-! ## Claims about `dispose` -/

/-- C12: `dispose` is idempotent: disposing the session and world that a first
`dispose` left gives back exactly that session and world, so the second call
changes no field and issues no engine call. -/
theorem dispose_idempotent {σ ω : Type} (E : Engine σ ω) (s : PiperSynthesizer)
    (w : World σ) :
    dispose E (dispose E s w).1 (dispose E s w).2 = dispose E s w := by
  unfold dispose
  have hnone := (cleanup_voices E s w).2.2.1
  generalize cleanup E s w = r at hnone
  unfold cleanup
  rw [hnone]

theorem registerVoice_fields (fe : String → Bool) (s : PiperSynthesizer)
    (k m j : String) :
    (registerVoice fe s k m j).synth_ = s.synth_ ∧
    (registerVoice fe s k m j).currentVoice_ = s.currentVoice_ ∧
    (registerVoice fe s k m j).lastSampleRate_ = s.lastSampleRate_ := by
  unfold registerVoice
  split
  · exact ⟨rfl, rfl, rfl⟩
  · split
    · exact ⟨rfl, rfl, rfl⟩
    · split <;> exact ⟨rfl, rfl, rfl⟩

/-- A session without a handle has no rate recorded: preserved by every step. -/
theorem step_idle_rate {σ ω : Type} (E : Engine σ ω) (fuel : Nat) (s : PiperSynthesizer)
    (w : World σ) (op : Op) (r : PiperSynthesizer × World σ)
    (hi : s.synth_ = none → s.lastSampleRate_ = 0) (hr : step E fuel s w op = some r) :
    r.1.synth_ = none → r.1.lastSampleRate_ = 0 := by
  cases op with
  | registerVoice fe k m j =>
    simp only [step, Option.some.injEq] at hr
    subst hr
    have hf := registerVoice_fields fe s k m j
    simp only [hf.1, hf.2.2]
    exact hi
  | initVoice k =>
    simp only [step, Option.some.injEq] at hr
    subst hr
    cases hkey : mapFind s.voices_ k with
    | none =>
      rw [initVoice_not_found E s w k hkey]
      exact hi
    | some mj =>
      obtain ⟨model, json⟩ := mj
      rw [initVoice_registered E s w k model json hkey]
      cases hc : (E.piper_create (cleanup E s w).2.eng model json "./espeak-ng-data").1 with
      | none =>
        intro _
        simp only [(cleanup_voices E s w).2.2.2]
        cases hs : s.synth_ with
        | none => simpa using hi hs
        | some h => simp
      | some hnew =>
        intro hn
        simp at hn
  | synthesize text =>
    simp only [step] at hr
    cases hsyn : synthesize E fuel s w text with
    | none => simp [hsyn] at hr
    | some x =>
      rw [hsyn] at hr
      simp only [Option.map_some', Option.some.injEq] at hr
      subst hr
      rcases synthesize_cases E fuel s w text x hsyn with h1 | ⟨h, hs, _, _, h2⟩ |
        ⟨h, n, hs, _, _, _, _, h3⟩
      · rw [h1]
        exact hi
      · rw [h2]
        exact hi
      · rw [h3]
        intro hn
        simp [hs] at hn
  | dispose =>
    simp only [step, Option.some.injEq, dispose] at hr
    subst hr
    intro _
    simp only [(cleanup_voices E s w).2.2.2]
    cases hs : s.synth_ with
    | none => simpa using hi hs
    | some h => simp
  | getLastSampleRate =>
    simp only [step, Option.some.injEq] at hr
    subst hr
    exact hi
  | listVoices =>
    simp only [step, Option.some.injEq] at hr
    subst hr
    exact hi

theorem run_idle_rate {σ ω : Type} (E : Engine σ ω) (fuel : Nat) :
    ∀ (ops : List Op) (s : PiperSynthesizer) (w : World σ) (r : PiperSynthesizer × World σ),
      (s.synth_ = none → s.lastSampleRate_ = 0) → run E fuel ops s w = some r →
      r.1.synth_ = none → r.1.lastSampleRate_ = 0 := by
  intro ops
  induction ops with
  | nil =>
    intro s w r hi hr
    simp only [run, Option.some.injEq] at hr
    subst hr
    exact hi
  | cons op ops ih =>
    intro s w r hi hr
    simp only [run] at hr
    cases hst : step E fuel s w op with
    | none => simp [hst] at hr
    | some x =>
      rw [hst] at hr
      exact ih x.1 x.2 r (step_idle_rate E fuel s w op x hi hst) hr

/-- C13: in every state reached from a fresh session by a sequence of public
operations, after `dispose()` the session holds no handle and
`getLastSampleRate()` returns 0, whether or not a handle was owned. -/
theorem dispose_resets_rate {σ ω : Type} (E : Engine σ ω) (fuel : Nat) (ops : List Op)
    (e0 : σ) (s : PiperSynthesizer) (w : World σ)
    (hrun : run E fuel ops PiperSynthesizer.fresh { eng := e0, log := [] } = some (s, w)) :
    (dispose E s w).1.synth_ = none ∧ getLastSampleRate (dispose E s w).1 = 0 := by
  have hi : s.synth_ = none → s.lastSampleRate_ = 0 :=
    run_idle_rate E fuel ops PiperSynthesizer.fresh { eng := e0, log := [] } (s, w)
      (fun _ => rfl) hrun
  have hc := cleanup_voices E s w
  refine ⟨hc.2.2.1, ?_⟩
  unfold getLastSampleRate dispose
  rw [hc.2.2.2]
  cases hs : s.synth_ with
  | none => simpa using hi hs
  | some h => simp

/-- C13 on the scenario of the spec: register, activate, synthesize (22050 Hz is
recorded), dispose; then the rate reads 0. -/
theorem dispose_after_synthesis :
    run scripted 2 synthesizedOnce PiperSynthesizer.fresh { eng := twoCreates, log := [] } =
      some (afterSynthesizedOnce, worldSynthesizedOnce) ∧
    getLastSampleRate afterSynthesizedOnce = 22050 ∧
    (dispose scripted afterSynthesizedOnce worldSynthesizedOnce).1.synth_ = none ∧
    getLastSampleRate (dispose scripted afterSynthesizedOnce worldSynthesizedOnce).1 = 0 :=
  ⟨rfl, rfl,
    (dispose_resets_rate scripted 2 synthesizedOnce twoCreates afterSynthesizedOnce
      worldSynthesizedOnce rfl).1,
    (dispose_resets_rate scripted 2 synthesizedOnce twoCreates afterSynthesizedOnce
      worldSynthesizedOnce rfl).2⟩

/-! ## The rate stays unset until samples arrive -/

theorem recordRate_silent (r : Int) (cs : List piper_audio_chunk)
    (hcs : ∀ c ∈ cs, c.hasSamples = false) : recordRate r cs = r := by
  induction cs generalizing r with
  | nil => rfl
  | cons c cs ih =>
    simp only [recordRate, hcs c (List.mem_cons_self c cs)]
    exact ih r (fun x hx => hcs x (List.mem_cons_of_mem c hx))

theorem initVoice_true_rate {σ ω : Type} (E : Engine σ ω) (s : PiperSynthesizer) (w : World σ)
    (voice_key : String) (ht : (initVoice E s w voice_key).1 = true) :
    (initVoice E s w voice_key).2.1.lastSampleRate_ = 0 := by
  cases hkey : mapFind s.voices_ voice_key with
  | none =>
    rw [initVoice_not_found E s w voice_key hkey] at ht
    simp at ht
  | some mj =>
    obtain ⟨model, json⟩ := mj
    rw [initVoice_registered E s w voice_key model json hkey] at ht ⊢
    cases hr : (E.piper_create (cleanup E s w).2.eng model json "./espeak-ng-data").1 with
    | none =>
      rw [hr] at ht
      simp at ht
    | some hnew => rfl

/-- One silent call keeps the handle and leaves the rate unset. -/
theorem synthesize_silent {σ ω : Type} (E : Engine σ ω) (fuel : Nat) (s : PiperSynthesizer)
    (w : World σ) (h : Handle) (text : String)
    (r : List Sample × PiperSynthesizer × World σ)
    (hs : s.synth_ = some h) (hz : s.lastSampleRate_ = 0)
    (hq : silentCall E h fuel w text) (hr : synthesize E fuel s w text = some r) :
    r.2.1.synth_ = some h ∧ r.2.1.lastSampleRate_ = 0 := by
  rcases synthesize_cases E fuel s w text r hr with h1 | ⟨h2, _, _, _, h2r⟩ |
    ⟨h3, n, hs3, ht, hst, hn, hend, h3r⟩
  · rw [h1]
    exact ⟨hs, hz⟩
  · rw [h2r]
    exact ⟨hs, hz⟩
  · have hh : h3 = h := by
      rw [hs] at hs3
      exact (Option.some.inj hs3).symm
    subst hh
    rw [h3r]
    refine ⟨hs, ?_⟩
    simp only [hz]
    exact recordRate_silent 0 _ (hq ht hst n hn hend)

theorem run_silent {σ ω : Type} (E : Engine σ ω) (fuel : Nat) (h : Handle) :
    ∀ (texts : List String) (s : PiperSynthesizer) (w : World σ)
      (r : PiperSynthesizer × World σ),
      s.synth_ = some h → s.lastSampleRate_ = 0 → allSilent E h fuel texts s w →
      run E fuel (texts.map Op.synthesize) s w = some r →
      r.1.synth_ = some h ∧ r.1.lastSampleRate_ = 0 := by
  intro texts
  induction texts with
  | nil =>
    intro s w r hs hz _ hr
    simp only [List.map_nil, run, Option.some.injEq] at hr
    subst hr
    exact ⟨hs, hz⟩
  | cons t ts ih =>
    intro s w r hs hz hq hr
    simp only [List.map_cons, run, step] at hr
    simp only [allSilent] at hq
    cases hsyn : synthesize E fuel s w t with
    | none => simp [hsyn] at hr
    | some x =>
      rw [hsyn] at hr hq
      have h1 := synthesize_silent E fuel s w h t x hs hz hq.1 hsyn
      exact ih x.2.1 x.2.2 r h1.1 h1.2 hq.2 hr

/-- C14: after an `initVoice` that returns `true` (the session then owns handle
`h`), `getLastSampleRate()` returns 0, and it still returns 0, with the same
handle owned, after any sequence of `synthesize` calls in none of which a
processed chunk had samples. -/
theorem rate_zero_until_samples {σ ω : Type} (E : Engine σ ω) (s : PiperSynthesizer)
    (w : World σ) (voice_key : String) (h : Handle)
    (hact : (initVoice E s w voice_key).1 = true)
    (hh : (initVoice E s w voice_key).2.1.synth_ = some h) :
    getLastSampleRate (initVoice E s w voice_key).2.1 = 0 ∧
    ∀ (fuel : Nat) (texts : List String) (s2 : PiperSynthesizer) (w2 : World σ),
      allSilent E h fuel texts (initVoice E s w voice_key).2.1
        (initVoice E s w voice_key).2.2 →
      run E fuel (texts.map Op.synthesize) (initVoice E s w voice_key).2.1
        (initVoice E s w voice_key).2.2 = some (s2, w2) →
      s2.synth_ = some h ∧ getLastSampleRate s2 = 0 := by
  have hz := initVoice_true_rate E s w voice_key hact
  refine ⟨hz, ?_⟩
  intro fuel texts s2 w2 hq hr
  exact run_silent E fuel h texts _ _ (s2, w2) hh hz hq hr

/-- C14 on `silentEngine`: after activation the rate is 0, and it is still 0
after an empty-text call, a call that pulls two chunks without samples, and a
call whose first pull fails. -/
theorem rate_zero_after_silent_calls :
    getLastSampleRate (initVoice scripted registeredSession
      { eng := silentEngine, log := [] } "en_us").2.1 = 0 ∧
    run scripted 3 (["", "a", "b"].map Op.synthesize)
      (initVoice scripted registeredSession { eng := silentEngine, log := [] } "en_us").2.1
      (initVoice scripted registeredSession { eng := silentEngine, log := [] } "en_us").2.2 =
        some (afterSilentCalls, worldSilentCalls) ∧
    afterSilentCalls.synth_ = some 1 ∧ getLastSampleRate afterSilentCalls = 0 :=
  have key := rate_zero_until_samples scripted registeredSession
    { eng := silentEngine, log := [] } "en_us" 1 (by decide) (by decide)
  ⟨key.1, rfl,
    key.2 3 ["", "a", "b"] afterSilentCalls worldSilentCalls
      ⟨by decide, by decide, by decide, trivial⟩ rfl⟩

/-! ## The registry -/

theorem mapFind_mapAssign (l : List (String × String × String)) (k key : String)
    (v : String × String) :
    mapFind (mapAssign l k v) key = if k = key then some v else mapFind l key := by
  induction l with
  | nil => simp [mapAssign, mapFind]
  | cons x xs ih =>
    obtain ⟨k0, v0⟩ := x
    by_cases h0 : k0 = k
    · subst h0
      by_cases h1 : k0 = key
      · simp [mapAssign, mapFind, h1]
      · simp [mapAssign, mapFind, h1]
    · by_cases h1 : k0 = key
      · subst h1
        have h2 : ¬ k = k0 := fun e => h0 e.symm
        simp [mapAssign, mapFind, h0, h2]
      · simp [mapAssign, mapFind, h0, h1, ih]

theorem mem_keys_mapAssign (l : List (String × String × String)) (k key : String)
    (v : String × String) :
    key ∈ (mapAssign l k v).map (fun kv => kv.1) ↔
      key = k ∨ key ∈ l.map (fun kv => kv.1) := by
  induction l with
  | nil => simp [mapAssign]
  | cons x xs ih =>
    obtain ⟨k0, v0⟩ := x
    by_cases h0 : k0 = k
    · subst h0
      simp [mapAssign]
    · simp only [mapAssign, if_neg h0, List.map_cons, List.mem_cons, ih]
      tauto

theorem nodup_keys_mapAssign (l : List (String × String × String)) (k : String)
    (v : String × String) (hl : (l.map (fun kv => kv.1)).Nodup) :
    ((mapAssign l k v).map (fun kv => kv.1)).Nodup := by
  induction l with
  | nil => simp [mapAssign]
  | cons x xs ih =>
    obtain ⟨k0, v0⟩ := x
    simp only [List.map_cons, List.nodup_cons] at hl
    by_cases h0 : k0 = k
    · subst h0
      simp only [mapAssign, if_true, List.map_cons, List.nodup_cons]
      exact hl
    · simp only [mapAssign, if_neg h0, List.map_cons, List.nodup_cons]
      refine ⟨?_, ih hl.2⟩
      rw [mem_keys_mapAssign]
      intro hmem
      rcases hmem with h1 | h1
      · exact h0 h1
      · exact hl.1 h1

theorem mapFind_isSome (l : List (String × String × String)) (key : String) :
    (mapFind l key).isSome = true ↔ key ∈ l.map (fun kv => kv.1) := by
  induction l with
  | nil => simp [mapFind]
  | cons x xs ih =>
    obtain ⟨k0, v0⟩ := x
    by_cases h0 : k0 = key
    · simp [mapFind, h0]
    · have h1 : ¬ key = k0 := fun e => h0 e.symm
      simp [mapFind, h0, h1, ih]

/-- Unfolding of a `registerVoice` call that passes the three checks. -/
theorem registerVoice_ok (fe : String → Bool) (s : PiperSynthesizer) (k m j : String)
    (hk : k ≠ "") (hm : fe m = true) (hj : fe j = true) :
    registerVoice fe s k m j = { s with voices_ := mapAssign s.voices_ k (m, j) } := by
  simp [registerVoice, hk, hm, hj]

/-- Unfolding of a `registerVoice` call that fails one of the three checks. -/
theorem registerVoice_fail (fe : String → Bool) (s : PiperSynthesizer) (k m j : String)
    (h : k = "" ∨ fe m = false ∨ fe j = false) : registerVoice fe s k m j = s := by
  unfold registerVoice
  rcases h with h | h | h
  · simp [h]
  · simp [h]
  · simp [h]

/-- C15: for a non-empty key and model and json paths that both exist,
`listVoices()` after `registerVoice` contains the key and every key it
contained before. -/
theorem registerVoice_lists_key (fe : String → Bool) (s : PiperSynthesizer)
    (k m j : String) (hk : k ≠ "") (hm : fe m = true) (hj : fe j = true) :
    k ∈ listVoices (registerVoice fe s k m j) ∧
    ∀ k0, k0 ∈ listVoices s → k0 ∈ listVoices (registerVoice fe s k m j) := by
  rw [registerVoice_ok fe s k m j hk hm hj]
  unfold listVoices
  constructor
  · exact (mem_keys_mapAssign s.voices_ k k (m, j)).2 (Or.inl rfl)
  · intro k0 h0
    exact (mem_keys_mapAssign s.voices_ k k0 (m, j)).2 (Or.inr h0)

/-- C15 on a session that already has `en_us` and `de`: registering `fr` lists
all three. -/
theorem registerVoice_lists_key_example :
    "fr" ∈ listVoices (registerVoice allFiles twoVoiceSession "fr" "fr.onnx" "fr.json") ∧
    ∀ k0, k0 ∈ listVoices twoVoiceSession →
      k0 ∈ listVoices (registerVoice allFiles twoVoiceSession "fr" "fr.onnx" "fr.json") :=
  registerVoice_lists_key allFiles twoVoiceSession "fr" "fr.onnx" "fr.json"
    (by decide) rfl rfl

/-- C16: `registerVoice` with an empty key, or a model path that does not
exist, or a json path that does not exist, returns the session unchanged: no
entry is added and none is overwritten. -/
theorem registerVoice_rejects (fe : String → Bool) (s : PiperSynthesizer)
    (k m j : String) (h : k = "" ∨ fe m = false ∨ fe j = false) :
    registerVoice fe s k m j = s ∧
    listVoices (registerVoice fe s k m j) = listVoices s ∧
    ∀ key, mapFind (registerVoice fe s k m j).voices_ key = mapFind s.voices_ key := by
  rw [registerVoice_fail fe s k m j h]
  exact ⟨rfl, rfl, fun _ => rfl⟩

/-- C16 on a key that is already registered: `de` keeps its paths when it is
registered again with a json file that does not exist. -/
theorem registerVoice_rejects_example :
    registerVoice onlyModel twoVoiceSession "de" "model.onnx" "other.json" =
      twoVoiceSession ∧
    listVoices (registerVoice onlyModel twoVoiceSession "de" "model.onnx" "other.json") =
      listVoices twoVoiceSession ∧
    ∀ key, mapFind (registerVoice onlyModel twoVoiceSession "de" "model.onnx"
      "other.json").voices_ key = mapFind twoVoiceSession.voices_ key :=
  registerVoice_rejects onlyModel twoVoiceSession "de" "model.onnx" "other.json"
    (Or.inr (Or.inr (by decide)))

theorem registerVoice_find (c : RegCall) (s : PiperSynthesizer) (key : String) :
    mapFind (registerVoice c.fileExists s c.voice_key c.modelFilename
      c.jsonFilename).voices_ key =
      if c.succeeds = true ∧ c.voice_key = key then some (c.modelFilename, c.jsonFilename)
      else mapFind s.voices_ key := by
  by_cases hk : c.voice_key = ""
  · rw [registerVoice_fail _ s _ _ _ (Or.inl hk)]
    simp [RegCall.succeeds, hk]
  · cases hm : c.fileExists c.modelFilename with
    | false =>
      rw [registerVoice_fail _ s _ _ _ (Or.inr (Or.inl hm))]
      simp [RegCall.succeeds, hm]
    | true =>
      cases hj : c.fileExists c.jsonFilename with
      | false =>
        rw [registerVoice_fail _ s _ _ _ (Or.inr (Or.inr hj))]
        simp [RegCall.succeeds, hj]
      | true =>
        rw [registerVoice_ok _ s _ _ _ hk hm hj]
        simp [RegCall.succeeds, hk, hm, hj, mapFind_mapAssign]

theorem registerVoice_nodup (fe : String → Bool) (s : PiperSynthesizer) (k m j : String)
    (hs : (listVoices s).Nodup) : (listVoices (registerVoice fe s k m j)).Nodup := by
  unfold registerVoice
  split
  · exact hs
  · split
    · exact hs
    · split
      · exact hs
      · exact nodup_keys_mapAssign s.voices_ k (m, j) hs

theorem registerAll_find (calls : List RegCall) :
    ∀ (s : PiperSynthesizer) (key : String),
      mapFind (registerAll calls s).voices_ key =
        match lastWrite calls key with
        | some v => some v
        | none => mapFind s.voices_ key := by
  induction calls with
  | nil =>
    intro s key
    simp [registerAll, lastWrite]
  | cons c cs ih =>
    intro s key
    simp only [registerAll, lastWrite]
    rw [ih]
    cases hl : lastWrite cs key with
    | some v => rfl
    | none =>
      simp only [registerVoice_find]
      split <;> rfl

theorem registerAll_nodup (calls : List RegCall) :
    ∀ s : PiperSynthesizer, (listVoices s).Nodup →
      (listVoices (registerAll calls s)).Nodup := by
  induction calls with
  | nil =>
    intro s hs
    exact hs
  | cons c cs ih =>
    intro s hs
    exact ih _ (registerVoice_nodup _ s _ _ _ hs)

theorem mapAssign_twice (l : List (String × String × String)) (k : String)
    (v : String × String) : mapAssign (mapAssign l k v) k v = mapAssign l k v := by
  induction l with
  | nil => simp [mapAssign]
  | cons x xs ih =>
    obtain ⟨k0, v0⟩ := x
    by_cases h0 : k0 = k
    · simp [mapAssign, h0]
    · simp [mapAssign, h0, ih]

/-- C17: after any sequence of `registerVoice` calls on a fresh session, every
key resolves to the paths of the most recent successful call for it (and to
nothing when there was none), and is listed by `listVoices()` exactly once when
it resolves and not at all otherwise; and a `registerVoice` call repeated with
the same arguments under the same file system leaves the session exactly as
the first call left it. -/
theorem last_write_wins (calls : List RegCall) (key : String) :
    mapFind (registerAll calls PiperSynthesizer.fresh).voices_ key = lastWrite calls key ∧
    (listVoices (registerAll calls PiperSynthesizer.fresh)).count key =
      (if (lastWrite calls key).isSome then 1 else 0) ∧
    ∀ (fe : String → Bool) (s : PiperSynthesizer) (k m j : String),
      registerVoice fe (registerVoice fe s k m j) k m j = registerVoice fe s k m j := by
  have hfind : mapFind (registerAll calls PiperSynthesizer.fresh).voices_ key =
      lastWrite calls key := by
    rw [registerAll_find]
    cases lastWrite calls key with
    | none => rfl
    | some v => rfl
  refine ⟨hfind, ?_, ?_⟩
  · have hnd := registerAll_nodup calls PiperSynthesizer.fresh
      (by simp [listVoices, PiperSynthesizer.fresh])
    rw [List.count_eq_of_nodup hnd]
    have hmem := mapFind_isSome (registerAll calls PiperSynthesizer.fresh).voices_ key
    rw [hfind] at hmem
    unfold listVoices
    by_cases hs : (lastWrite calls key).isSome = true
    · rw [if_pos (hmem.1 hs), if_pos hs]
    · rw [if_neg (fun hm => hs (hmem.2 hm)), if_neg hs]
  · intro fe s k m j
    by_cases hk : k = ""
    · simp only [registerVoice_fail fe _ k m j (Or.inl hk)]
    · cases hm : fe m with
      | false => simp only [registerVoice_fail fe _ k m j (Or.inr (Or.inl hm))]
      | true =>
        cases hj : fe j with
        | false => simp only [registerVoice_fail fe _ k m j (Or.inr (Or.inr hj))]
        | true =>
          simp only [registerVoice_ok fe _ k m j hk hm hj, mapAssign_twice]

/-- C17 on `reRegistered`: the second call overwrites the first, the rejected
third call changes nothing, and `en_us` is listed once. -/
theorem last_write_wins_example :
    mapFind (registerAll reRegistered PiperSynthesizer.fresh).voices_ "en_us" =
      lastWrite reRegistered "en_us" ∧
    lastWrite reRegistered "en_us" = some ("v2.onnx", "v2.json") ∧
    (listVoices (registerAll reRegistered PiperSynthesizer.fresh)).count "en_us" =
      (if (lastWrite reRegistered "en_us").isSome then 1 else 0) ∧
    listVoices (registerAll reRegistered PiperSynthesizer.fresh) = ["en_us"] :=
  ⟨(last_write_wins reRegistered "en_us").1, by decide,
    (last_write_wins reRegistered "en_us").2.1, by decide⟩

/-! ## Termination and frame of `synthesize`, frame of `registerVoice` -/

/-- C18: on a live handle with non-empty text and a successful start, with
"more data" and "done" distinct statuses, when pull `n` (counted from 0) is the
first pull that returns a status other than "more data" or a chunk with
`is_last`, the loop of `synthesize` ends for every fuel above `n` and the call
has issued exactly `n + 1` pulls: none after the first terminating signal. -/
theorem synthesize_pull_count {σ ω : Type} (E : Engine σ ω) (s : PiperSynthesizer)
    (w : World σ) (h : Handle) (text : String) (n fuel : Nat)
    (hlive : s.synth_ = some h) (htext : text ≠ "")
    (hstart : startStatus E w.eng h text = E.PIPER_OK)
    (hconst : E.PIPER_OK ≠ E.PIPER_DONE)
    (hbefore : ∀ i, i < n →
      ¬ ((pull E h (startState E w.eng h text) i).1 ≠ E.PIPER_OK ∨
        (pull E h (startState E w.eng h text) i).2.is_last = true))
    (hat : (pull E h (startState E w.eng h text) n).1 ≠ E.PIPER_OK ∨
      (pull E h (startState E w.eng h text) n).2.is_last = true)
    (hfuel : n < fuel) :
    ∃ a s1 w1, synthesize E fuel s w text = some (a, s1, w1) ∧
      w1.log = w.log ++ [EngineCall.defaultOptions h, EngineCall.start h text] ++
        List.replicate (n + 1) (EngineCall.next h) := by
  have hend : endsAt E h (startState E w.eng h text) n := by
    constructor
    · intro i hi
      have hb := hbefore i hi
      have hok : (pull E h (startState E w.eng h text) i).1 = E.PIPER_OK := by
        by_contra hne
        exact hb (Or.inl hne)
      constructor
      · intro he
        exact he.1 hok
      · intro hf
        rcases hf with hd | hl
        · exact hconst (hok.symm.trans hd)
        · exact hb (Or.inr hl)
    · rcases hat with hne | hl
      · by_cases hd : (pull E h (startState E w.eng h text) n).1 = E.PIPER_DONE
        · exact Or.inr (Or.inl hd)
        · exact Or.inl ⟨hne, hd⟩
      · exact Or.inr (Or.inr hl)
  exact ⟨_, _, _, synthesize_ends E s w h text n fuel hlive htext hstart hend hfuel, rfl⟩

/-- C18 on the engine whose third pull fails: three pulls are issued although a
fourth chunk was available and the fuel allowed five. -/
theorem synthesize_pull_count_example :
    ∃ a s1 w1,
      synthesize scripted 5 readySession { eng := failsOnThird, log := [] } "hello" =
        some (a, s1, w1) ∧
      w1.log = [] ++ [EngineCall.defaultOptions 7, EngineCall.start 7 "hello"] ++
        List.replicate (2 + 1) (EngineCall.next 7) :=
  synthesize_pull_count scripted readySession { eng := failsOnThird, log := [] }
    7 "hello" 2 5 rfl (by decide) rfl (by decide) (by decide) (by decide) (by decide)

theorem lifecycle_free_nexts (h : Handle) (k : Nat) :
    ∀ c ∈ List.replicate k (EngineCall.next h), c.isLifecycle = false := by
  intro c hc
  rw [List.eq_of_mem_replicate hc]
  rfl

/-- C19: a `synthesize` call that returns leaves the owned handle, the voice
key and the registry as they were, so the session differs from the one before
at most in `lastSampleRate_`; and the calls it adds to the log contain no
`piper_create` and no `piper_free`.  This holds for every state, text and
engine, whichever way the call ends. -/
theorem synthesize_changes_only_rate {σ ω : Type} (E : Engine σ ω) (fuel : Nat)
    (s : PiperSynthesizer) (w : World σ) (text : String)
    (r : List Sample × PiperSynthesizer × World σ)
    (hr : synthesize E fuel s w text = some r) :
    r.2.1.synth_ = s.synth_ ∧ r.2.1.currentVoice_ = s.currentVoice_ ∧
    r.2.1.voices_ = s.voices_ ∧
    r.2.1 = { s with lastSampleRate_ := r.2.1.lastSampleRate_ } ∧
    ∃ added, r.2.2.log = w.log ++ added ∧ ∀ c ∈ added, c.isLifecycle = false := by
  rcases synthesize_cases E fuel s w text r hr with h1 | ⟨h, _, _, _, h2⟩ |
    ⟨h, n, _, _, _, _, _, h3⟩
  · rw [h1]
    exact ⟨rfl, rfl, rfl, rfl, [], by simp, by simp⟩
  · rw [h2]
    refine ⟨rfl, rfl, rfl, rfl, _, rfl, ?_⟩
    intro c hc
    simp only [List.mem_cons, List.mem_singleton, List.not_mem_nil, or_false] at hc
    rcases hc with hc | hc <;> rw [hc] <;> rfl
  · rw [h3]
    refine ⟨rfl, rfl, rfl, rfl, _, List.append_assoc _ _ _, ?_⟩
    intro c hc
    rw [List.mem_append] at hc
    rcases hc with hc | hc
    · simp only [List.mem_cons, List.mem_singleton, List.not_mem_nil, or_false] at hc
      rcases hc with hc | hc <;> rw [hc] <;> rfl
    · exact lifecycle_free_nexts h _ c hc

/-- C19 on the engine whose third pull fails: after the mid-stream error the
session differs from `readySession` only in the recorded rate, and the three
kinds of call added to the log are neither creations nor releases. -/
theorem synthesize_changes_only_rate_example :
    synthesize scripted 5 readySession { eng := failsOnThird, log := [] } "hello" =
      some ([0, 1, 2, 3, 10, 11, 12], ratedSession,
        { eng := { failsOnThird with pulls := [(0, mkChunk 30 1 22050 true)] },
          log := [EngineCall.defaultOptions 7, EngineCall.start 7 "hello", EngineCall.next 7,
            EngineCall.next 7, EngineCall.next 7] }) ∧
    ratedSession.synth_ = readySession.synth_ ∧
    ratedSession.currentVoice_ = readySession.currentVoice_ ∧
    ratedSession.voices_ = readySession.voices_ ∧
    ratedSession = { readySession with lastSampleRate_ := ratedSession.lastSampleRate_ } ∧
    ∃ added,
      [EngineCall.defaultOptions 7, EngineCall.start 7 "hello", EngineCall.next 7,
        EngineCall.next 7, EngineCall.next 7] = [] ++ added ∧
      ∀ c ∈ added, c.isLifecycle = false :=
  ⟨rfl,
    synthesize_changes_only_rate scripted 5 readySession
      { eng := failsOnThird, log := [] } "hello"
      ([0, 1, 2, 3, 10, 11, 12], ratedSession,
        { eng := { failsOnThird with pulls := [(0, mkChunk 30 1 22050 true)] },
          log := [EngineCall.defaultOptions 7, EngineCall.start 7 "hello", EngineCall.next 7,
            EngineCall.next 7, EngineCall.next 7] }) rfl⟩

/-- C20: `registerVoice`, with any arguments under any file system, leaves the
owned handle, the voice key and `lastSampleRate_` as they were, and as a step
of the driver it leaves the world (engine state and call log) untouched: it
makes no engine call, so the handle in use stays the one built from the paths
registered when `initVoice` was last called. -/
theorem registerVoice_touches_only_registry {σ ω : Type} (E : Engine σ ω) (fuel : Nat)
    (fe : String → Bool) (s : PiperSynthesizer) (w : World σ) (k m j : String) :
    (registerVoice fe s k m j).synth_ = s.synth_ ∧
    (registerVoice fe s k m j).currentVoice_ = s.currentVoice_ ∧
    (registerVoice fe s k m j).lastSampleRate_ = s.lastSampleRate_ ∧
    registerVoice fe s k m j = { s with voices_ := (registerVoice fe s k m j).voices_ } ∧
    step E fuel s w (Op.registerVoice fe k m j) = some (registerVoice fe s k m j, w) := by
  have hf := registerVoice_fields fe s k m j
  refine ⟨hf.1, hf.2.1, hf.2.2, ?_, rfl⟩
  unfold registerVoice
  split
  · rfl
  · split
    · rfl
    · split <;> rfl

end PiperTTS

